import Mathlib

/-!
# Verification of the copilotchat incremental content synchronization engine

Shallow embedding of the pure logic of `getchat_cdp.py` (class
`CopilotChatCaptureCDP`), `app.py` (`_stream_response`) and
`backup/test_streaming.py` (`message_looks_complete`,
`check_streaming_complete`), together with proofs about the embedded
definitions.

Python strings are modelled as `List Char`.  `str.splitlines` is modelled
for the `'\n'` terminator (the only terminator the engine itself produces
when re-joining lines); `str.strip`/`rstrip` use the ASCII whitespace
characters.  Page state observed during one iteration of a poll loop is
modelled as one immutable observation record per poll, and each loop body
is a pure function from (state, observation) to (state, emitted writes /
deltas / result).  A loop's timeout is modelled by exhausting the finite
list of observations.
-/

namespace CopilotChat

/-- Python strings as lists of characters. -/
abbrev Str := List Char

/-- Embed a Lean string literal as a `Str`. -/
def str (s : String) : Str := s.data

/-- Whitespace characters stripped by Python `str.strip` / `str.rstrip`
(ASCII subset). -/
def isPySpace (c : Char) : Bool :=
  c = ' ' || c = '\t' || c = '\n' || c = '\r' || c = '\x0b' || c = '\x0c'

/-- Python `str.lstrip()`. -/
def lstrip (s : Str) : Str := s.dropWhile isPySpace

/-- Python `str.rstrip()` (used per line in `_normalize_stream_text`). -/
def rstrip (s : Str) : Str := s.rdropWhile isPySpace

/-- Python `str.strip()`. -/
def strip (s : Str) : Str := lstrip (rstrip s)

/-- Helper for `splitlines`; accumulates the current line reversed. -/
def splitlinesAux : Str → Str → List Str
  | [], acc => if acc.isEmpty then [] else [acc.reverse]
  | c :: rest, acc =>
    if c = '\n' then acc.reverse :: splitlinesAux rest []
    else splitlinesAux rest (c :: acc)

/-- Python `str.splitlines()`, modelled for the `'\n'` terminator:
`"" ↦ []`, `"a\nb" ↦ ["a","b"]`, a trailing `'\n'` produces no extra
empty line. -/
def splitlines (s : Str) : List Str := splitlinesAux s []

/-- Python `sep.join(lines)`. -/
def pyJoin (sep : Str) : List Str → Str
  | [] => []
  | [x] => x
  | x :: y :: xs => x ++ sep ++ pyJoin sep (y :: xs)

/-- The `'\n'` separator used by `_normalize_stream_text` to re-join lines. -/
def nl : Str := ['\n']

/-- The fixed boilerplate prefix set of `_normalize_stream_text`
(`skip_prefixes` in the source). -/
def skip_prefixes : List Str :=
  [str "Copilot", str "Generating response", str "Reasoned for",
   str "Get a quick answer", str "You said:", str "Today"]

/-- The body of the per-line cleaning loop of `_normalize_stream_text`:
`some l` means `l` is appended to `cleaned`, `none` means the line is
dropped.  Blank lines are kept as `""`; lines whose stripped form starts
with a boilerplate prefix, or equals `":"`, are dropped; other lines are
kept as-is (they were already `rstrip`-ed by the caller). -/
def cleanLine (line : Str) : Option Str :=
  let stripped := strip line
  if stripped.isEmpty then some []
  else if skip_prefixes.any (fun p => p.isPrefixOf stripped) then none
  else if stripped = [':'] then none
  else some line

/-- `CopilotChatCaptureCDP._normalize_stream_text`: split into lines,
`rstrip` each, drop boilerplate/separator lines keeping blank lines,
re-join with `'\n'` and strip the result. -/
def normalize_stream_text (text : Str) : Str :=
  if text.isEmpty then []
  else strip (pyJoin nl (((splitlines text).map rstrip).filterMap cleanLine))

example : normalize_stream_text (str "  hello  ") = str "hello" := by decide
example : normalize_stream_text (str "Copilot\nhi there.") = str "hi there." := by decide
example : normalize_stream_text (str "a\n\nb\n") = str "a\n\nb" := by decide
example : normalize_stream_text (str " : \nx") = str "x" := by decide

/-! ## Lemmas about `strip`, `splitlines` and `pyJoin` -/

lemma lstrip_nil : lstrip [] = [] := rfl

lemma rstrip_nil : rstrip [] = [] := rfl

lemma strip_nil : strip [] = [] := rfl

lemma lstrip_idem (s : Str) : lstrip (lstrip s) = lstrip s :=
  List.dropWhile_idempotent _ _

lemma rstrip_idem (s : Str) : rstrip (rstrip s) = rstrip s :=
  List.rdropWhile_idempotent _ _

lemma lstrip_suffix (s : Str) : lstrip s <:+ s := List.dropWhile_suffix _

lemma rstrip_prefix_of (s : Str) : rstrip s <+: s := List.rdropWhile_prefix _ _

lemma rstrip_last_not (s : Str) (h : rstrip s ≠ []) :
    ¬ isPySpace ((rstrip s).getLast h) = true :=
  List.rdropWhile_last_not _ _ h

lemma rstrip_eq_self_of_last {s : Str} (h : s ≠ []) (hc : ¬ isPySpace (s.getLast h) = true) :
    rstrip s = s := by
  apply List.rdropWhile_eq_self_iff.mpr
  intro _
  exact hc

lemma lstrip_eq_self_of_head {c : Char} {s : Str} (hc : ¬ isPySpace c = true) :
    lstrip (c :: s) = c :: s := by
  simp [lstrip, List.dropWhile_cons, hc]

/-- A nonempty suffix has the same last element. -/
lemma getLast_of_suffix {α : Type*} {u s : List α} (h : u <:+ s) (hu : u ≠ []) (hs : s ≠ []) :
    u.getLast hu = s.getLast hs := by
  obtain ⟨t, rfl⟩ := h
  exact (List.getLast_append' t u hu).symm

lemma strip_idem (s : Str) : strip (strip s) = strip s := by
  unfold strip
  by_cases hu : rstrip s = []
  · simp [hu, lstrip_nil, rstrip_nil]
  · by_cases hv : lstrip (rstrip s) = []
    · simp [hv, lstrip_nil, rstrip_nil]
    · have hlast : (lstrip (rstrip s)).getLast hv = (rstrip s).getLast hu :=
        getLast_of_suffix (lstrip_suffix _) hv hu
      have : rstrip (lstrip (rstrip s)) = lstrip (rstrip s) :=
        rstrip_eq_self_of_last hv (hlast ▸ rstrip_last_not s hu)
      rw [this, lstrip_idem]

lemma strip_rstrip (s : Str) : strip (rstrip s) = strip s := by
  unfold strip; rw [rstrip_idem]

/-- `rstrip` of a nonempty result ends in a non-space character, so
strip-from-the-left does not disturb it. -/
lemma rstrip_cons (c : Char) (s : Str) :
    rstrip (c :: s) =
      if rstrip s = [] then (if isPySpace c then [] else [c]) else c :: rstrip s := by
  have hiff : rstrip s = [] ↔ List.dropWhile isPySpace s.reverse = [] := by
    simp [rstrip, List.rdropWhile]
  show ((c :: s).reverse.dropWhile isPySpace).reverse = _
  rw [show (c :: s).reverse = s.reverse ++ [c] from by simp, List.dropWhile_append]
  by_cases h : List.dropWhile isPySpace s.reverse = []
  · rw [if_pos (hiff.mpr h)]
    simp only [h, List.isEmpty_nil, if_pos]
    by_cases hc : isPySpace c
    · simp [List.dropWhile_cons, hc]
    · simp [List.dropWhile_cons, hc]
  · rw [if_neg (fun hh => h (hiff.mp hh))]
    have hne : (List.dropWhile isPySpace s.reverse).isEmpty = false := by
      simpa [List.isEmpty_iff] using h
    rw [hne]
    simp [rstrip, List.rdropWhile]

lemma strip_cons_space {c : Char} (s : Str) (hc : isPySpace c = true) :
    strip (c :: s) = strip s := by
  unfold strip
  rw [rstrip_cons]
  by_cases h : rstrip s = []
  · simp [h, hc, lstrip_nil]
  · simp only [h, if_neg]
    simp [lstrip, List.dropWhile_cons, hc]

lemma strip_concat_space {c : Char} (s : Str) (hc : isPySpace c = true) :
    strip (s ++ [c]) = strip s := by
  unfold strip
  rw [show rstrip (s ++ [c]) = rstrip s from List.rdropWhile_concat_pos _ _ _ hc]

lemma last_not_space_of_rstrip_fix {g : Str} (hg : g ≠ []) (hfix : rstrip g = g) :
    ¬ isPySpace (g.getLast hg) = true := by
  have h1 : rstrip g ≠ [] := by rw [hfix]; exact hg
  have h2 := rstrip_last_not g h1
  have h3 : (rstrip g).getLast h1 = g.getLast hg := by
    simp only [hfix]
  rw [h3] at h2
  exact h2

lemma splitlinesAux_append_nonl (l : Str) : '\n' ∉ l →
    ∀ (rest acc : Str), splitlinesAux (l ++ rest) acc = splitlinesAux rest (l.reverse ++ acc) := by
  induction l with
  | nil => intro _ rest acc; simp
  | cons c l ih =>
    intro hnl rest acc
    have hc : ¬ (c = '\n') := by intro h; exact hnl (by simp [h])
    have hl : '\n' ∉ l := fun h => hnl (List.mem_cons_of_mem _ h)
    rw [List.cons_append, show splitlinesAux (c :: (l ++ rest)) acc
        = splitlinesAux (l ++ rest) (c :: acc) from by simp [splitlinesAux, hc]]
    rw [ih hl rest (c :: acc)]
    congr 1
    simp

lemma splitlines_single {v : Str} (hnl : '\n' ∉ v) (hne : v ≠ []) : splitlines v = [v] := by
  have h := splitlinesAux_append_nonl v hnl [] []
  rw [List.append_nil] at h
  unfold splitlines
  rw [h]
  simp [splitlinesAux, List.isEmpty_iff, hne]

lemma pyJoin_cons_cons (sep x y : Str) (xs : List Str) :
    pyJoin sep (x :: y :: xs) = x ++ sep ++ pyJoin sep (y :: xs) := rfl

lemma splitlines_pyJoin : ∀ (ls : List Str), (∀ l ∈ ls, '\n' ∉ l) →
    ∀ (hne : ls ≠ []), ls.getLast hne ≠ [] → splitlines (pyJoin nl ls) = ls := by
  intro ls
  induction ls with
  | nil => intro _ hne; exact absurd rfl hne
  | cons x xs ih =>
    intro hall hne hlast
    cases xs with
    | nil =>
      have hx : x ≠ [] := by simpa using hlast
      exact splitlines_single (hall x (by simp)) hx
    | cons y ys =>
      have hx : '\n' ∉ x := hall x (by simp)
      rw [pyJoin_cons_cons]
      unfold splitlines
      rw [List.append_assoc, splitlinesAux_append_nonl x hx]
      show splitlinesAux ('\n' :: pyJoin nl (y :: ys)) (x.reverse ++ []) = _
      rw [show splitlinesAux ('\n' :: pyJoin nl (y :: ys)) (x.reverse ++ [])
          = (x.reverse ++ []).reverse :: splitlinesAux (pyJoin nl (y :: ys)) [] from by
        simp [splitlinesAux]]

      have hys : (y :: ys : List Str) ≠ [] := by simp
      have hlast' : (y :: ys).getLast hys ≠ [] := by
        rw [show (y :: ys).getLast hys = (x :: y :: ys).getLast hne from
          (List.getLast_cons hys).symm]
        exact hlast
      rw [show splitlinesAux (pyJoin nl (y :: ys)) [] = splitlines (pyJoin nl (y :: ys)) from rfl]
      rw [ih (fun l hl => hall l (List.mem_cons_of_mem _ hl)) hys hlast']
      simp

lemma pyJoin_eq_append_getLast (sep : Str) : ∀ (ls : List Str) (hne : ls ≠ []),
    ∃ pre, pyJoin sep ls = pre ++ ls.getLast hne := by
  intro ls
  induction ls with
  | nil => intro h; exact absurd rfl h
  | cons x xs ih =>
    intro _
    cases xs with
    | nil => exact ⟨[], rfl⟩
    | cons y ys =>
      obtain ⟨pre, hp⟩ := ih (by simp)
      refine ⟨x ++ sep ++ pre, ?_⟩
      rw [pyJoin_cons_cons, hp, List.getLast_cons (a := x) (l := y :: ys) (by simp)]
      simp [List.append_assoc]

lemma rstrip_pyJoin_fix (ls : List Str) (hne : ls ≠ []) (hlast : ls.getLast hne ≠ [])
    (hfix : rstrip (ls.getLast hne) = ls.getLast hne) :
    rstrip (pyJoin nl ls) = pyJoin nl ls := by
  obtain ⟨pre, hp⟩ := pyJoin_eq_append_getLast nl ls hne
  have hjne : pyJoin nl ls ≠ [] := by
    rw [hp]
    intro h
    exact hlast (List.append_eq_nil.mp h).2
  apply rstrip_eq_self_of_last hjne
  have h1 : (pyJoin nl ls).getLast hjne = (ls.getLast hne).getLast hlast := by
    simp only [hp]
    exact List.getLast_append' pre _ hlast
  rw [h1]
  exact last_not_space_of_rstrip_fix hlast hfix

/-! ## Normal form of the cleaned lines -/

/-- Invariants of the lines kept by the cleaning pass of
`_normalize_stream_text`: each is right-stripped, newline-free, and either
blank (kept as the empty line) or kept identically by `cleanLine`. -/
def lineGood (l : Str) : Prop :=
  rstrip l = l ∧ '\n' ∉ l ∧ (l = [] ∨ (strip l ≠ [] ∧ cleanLine l = some l))

lemma cleanLine_some_cases {a l : Str} (h : cleanLine a = some l) :
    (strip a = [] ∧ l = []) ∨ (strip a ≠ [] ∧ l = a ∧ cleanLine a = some a) := by
  have h : (if (strip a).isEmpty = true then some ([] : Str)
      else if (skip_prefixes.any fun p => p.isPrefixOf (strip a)) = true then none
      else if strip a = [':'] then none else some a) = some l := h
  split_ifs at h with h1 h2 h3
  · exact Or.inl ⟨List.isEmpty_iff.mp h1, (Option.some_inj.mp h).symm⟩
  · have hla : a = l := Option.some_inj.mp h
    subst hla
    refine Or.inr ⟨fun hc => h1 (by simp [hc]), rfl, ?_⟩
    simp only [cleanLine]
    rw [if_neg h1, if_neg h2, if_neg h3]

lemma cleanLine_of_lineGood {l : Str} (h : lineGood l) : cleanLine l = some l := by
  rcases h.2.2 with rfl | ⟨_, h2⟩
  · decide
  · exact h2

lemma splitlinesAux_no_newline : ∀ (s acc : Str), '\n' ∉ acc →
    ∀ l ∈ splitlinesAux s acc, '\n' ∉ l := by
  intro s
  induction s with
  | nil =>
    intro acc hacc l hl
    unfold splitlinesAux at hl
    split_ifs at hl with h
    · simp at hl
    · simp at hl
      rw [hl]
      simpa using hacc
  | cons c t ih =>
    intro acc hacc l hl
    unfold splitlinesAux at hl
    split_ifs at hl with hc
    · rcases List.mem_cons.mp hl with rfl | hl'
      · simpa using hacc
      · exact ih [] (by simp) l hl'
    · refine ih (c :: acc) (fun hmem => ?_) l hl
      rcases List.mem_cons.mp hmem with h' | h'
      · exact hc h'.symm
      · exact hacc h'

lemma mem_splitlines_no_newline {s b : Str} (hb : b ∈ splitlines s) : '\n' ∉ b :=
  splitlinesAux_no_newline s [] (by simp) b hb

lemma cleaned_lineGood {lines : List Str} (hnl : ∀ b ∈ lines, '\n' ∉ b) :
    ∀ l ∈ (lines.map rstrip).filterMap cleanLine, lineGood l := by
  intro l hl
  obtain ⟨a, ha, hcl⟩ := List.mem_filterMap.mp hl
  obtain ⟨b, hb, rfl⟩ := List.mem_map.mp ha
  have hanl : '\n' ∉ rstrip b := fun h => hnl b hb ((rstrip_prefix_of b).sublist.mem h)
  rcases cleanLine_some_cases hcl with ⟨_, rfl⟩ | ⟨hs, rfl, hcla⟩
  · exact ⟨rfl, by simp, Or.inl rfl⟩
  · exact ⟨rstrip_idem b, hanl, Or.inr ⟨hs, hcla⟩⟩

lemma filterMap_cleanLine_id : ∀ (ds : List Str), (∀ l ∈ ds, cleanLine l = some l) →
    ds.filterMap cleanLine = ds := by
  intro ds h
  induction ds with
  | nil => rfl
  | cons a t ih =>
    rw [List.filterMap_cons, h a (by simp), ih (fun l hl => h l (List.mem_cons_of_mem _ hl))]

lemma map_rstrip_id {ds : List Str} (h : ∀ l ∈ ds, rstrip l = l) : ds.map rstrip = ds := by
  rw [List.map_congr_left h]
  simp

/-! ## Peeling blank lines off the edges -/

lemma pyJoin_append_single (cs : List Str) (x : Str) (h : cs ≠ []) :
    pyJoin nl (cs ++ [x]) = pyJoin nl cs ++ '\n' :: x := by
  induction cs with
  | nil => exact absurd rfl h
  | cons c t ih =>
    cases t with
    | nil =>
      show c ++ nl ++ x = c ++ '\n' :: x
      simp [nl, List.append_assoc]
    | cons d t' =>
      rw [show ((c :: d :: t') ++ [x]) = c :: ((d :: t') ++ [x]) from rfl,
          show (d :: t') ++ [x] = d :: (t' ++ [x]) from rfl, pyJoin_cons_cons,
          show d :: (t' ++ [x]) = (d :: t') ++ [x] from rfl, ih (by simp),
          pyJoin_cons_cons]
      simp [List.append_assoc]

lemma strip_pyJoin_cons_nil_left (rest : List Str) :
    strip (pyJoin nl ([] :: rest)) = strip (pyJoin nl rest) := by
  cases rest with
  | nil => rfl
  | cons y ys =>
    rw [pyJoin_cons_cons]
    show strip ('\n' :: pyJoin nl (y :: ys)) = _
    exact strip_cons_space _ (by decide)

lemma strip_pyJoin_rdrop_blanks (cs : List Str) :
    strip (pyJoin nl (List.rdropWhile List.isEmpty cs)) = strip (pyJoin nl cs) := by
  induction cs using List.reverseRecOn with
  | nil => rfl
  | append_singleton t x ih =>
    by_cases hx : x.isEmpty
    · have hx' : x = [] := List.isEmpty_iff.mp hx
      rw [List.rdropWhile_concat_pos _ _ _ hx, ih, hx']
      cases t with
      | nil => rfl
      | cons y ys =>
        rw [pyJoin_append_single _ _ (by simp)]
        exact (strip_concat_space _ (by decide)).symm
    · rw [List.rdropWhile_concat_neg _ _ _ (by simpa using hx)]

lemma strip_pyJoin_drop_blanks (cs : List Str) :
    strip (pyJoin nl (cs.dropWhile List.isEmpty)) = strip (pyJoin nl cs) := by
  induction cs with
  | nil => rfl
  | cons x t ih =>
    by_cases hx : x.isEmpty
    · have hx' : x = [] := List.isEmpty_iff.mp hx
      rw [List.dropWhile_cons, if_pos hx, ih, hx']
      exact (strip_pyJoin_cons_nil_left t).symm
    · rw [List.dropWhile_cons, if_neg hx]

/-! ## `normalize_stream_text` is the identity on its own output -/

lemma lstrip_append_of_ne {a : Str} (b : Str) (ha : lstrip a ≠ []) :
    lstrip (a ++ b) = lstrip a ++ b := by
  unfold lstrip
  rw [List.dropWhile_append]
  have hne : (a.dropWhile isPySpace).isEmpty = false := by
    cases hbe : (a.dropWhile isPySpace).isEmpty
    · rfl
    · exact absurd (List.isEmpty_iff.mp hbe) ha
  rw [hne]
  simp

lemma cleanLine_conds {a : Str} (hne : strip a ≠ []) (h : cleanLine a = some a) :
    (skip_prefixes.any fun p => p.isPrefixOf (strip a)) = false ∧ strip a ≠ [':'] := by
  have h : (if (strip a).isEmpty = true then some ([] : Str)
      else if (skip_prefixes.any fun p => p.isPrefixOf (strip a)) = true then none
      else if strip a = [':'] then none else some a) = some a := h
  rw [if_neg (by simpa [List.isEmpty_iff] using hne)] at h
  by_cases h2 : (skip_prefixes.any fun p => p.isPrefixOf (strip a)) = true
  · rw [if_pos h2] at h
    exact absurd h (by simp)
  · by_cases h3 : strip a = [':']
    · rw [if_neg h2, if_pos h3] at h
      exact absurd h (by simp)
    · exact ⟨by simpa using h2, h3⟩

lemma cleanLine_keep_of_conds {b : Str} (hne : strip b ≠ [])
    (h2 : (skip_prefixes.any fun p => p.isPrefixOf (strip b)) = false)
    (h3 : strip b ≠ [':']) : cleanLine b = some b := by
  show (if (strip b).isEmpty = true then some ([] : Str)
      else if (skip_prefixes.any fun p => p.isPrefixOf (strip b)) = true then none
      else if strip b = [':'] then none else some b) = some b
  rw [if_neg (by simpa [List.isEmpty_iff] using hne), if_neg (by simp [h2]), if_neg h3]

lemma normalize_fix_core (h : Str) (rest : List Str)
    (hgood : ∀ l ∈ h :: rest, lineGood l) (hh : h ≠ [])
    (hlast : (h :: rest).getLast (by simp) ≠ []) :
    normalize_stream_text (strip (pyJoin nl (h :: rest))) = strip (pyJoin nl (h :: rest)) := by
  obtain ⟨hfix, hnlh, hor⟩ := hgood h (by simp)
  rcases hor with rfl | ⟨hsne, hkeep⟩
  · exact absurd rfl hh
  have hlh : strip h = lstrip h := by unfold strip; rw [hfix]
  have hlhne : lstrip h ≠ [] := by rw [← hlh]; exact hsne
  obtain ⟨c, t0, hct⟩ : ∃ c t0, lstrip h = c :: t0 := by
    cases hlt : lstrip h with
    | nil => exact absurd hlt hlhne
    | cons c t0 => exact ⟨c, t0, rfl⟩
  have hcns : ¬ isPySpace c = true := by
    have hne' : h.dropWhile isPySpace ≠ [] := hlhne
    have := List.head_dropWhile_not isPySpace h hne'
    simpa [show h.dropWhile isPySpace = lstrip h from rfl, hct] using this
  have hlsfix : rstrip (lstrip h) = lstrip h := by
    apply rstrip_eq_self_of_last hlhne
    rw [getLast_of_suffix (lstrip_suffix h) hlhne hh]
    exact last_not_space_of_rstrip_fix hh hfix
  have hstriplh : strip (lstrip h) = lstrip h := by
    unfold strip
    rw [hlsfix]
    exact lstrip_idem h
  have hkeep' : cleanLine (lstrip h) = some (lstrip h) := by
    have heq : strip (lstrip h) = strip h := by rw [hstriplh, hlh]
    obtain ⟨h2, h3⟩ := cleanLine_conds hsne hkeep
    exact cleanLine_keep_of_conds (by rw [heq]; exact hsne) (by rw [heq]; exact h2)
      (by rw [heq]; exact h3)
  have hnlls : '\n' ∉ lstrip h := fun hm => hnlh ((lstrip_suffix h).sublist.mem hm)
  -- the outer strip turns the join of `h :: rest` into the join of `lstrip h :: rest`
  have hgoodLast : lineGood ((h :: rest).getLast (by simp)) :=
    hgood _ (List.getLast_mem (by simp))
  have hrsj : rstrip (pyJoin nl (h :: rest)) = pyJoin nl (h :: rest) :=
    rstrip_pyJoin_fix _ (by simp) hlast hgoodLast.1
  have hsj : strip (pyJoin nl (h :: rest)) = pyJoin nl (lstrip h :: rest) := by
    unfold strip
    rw [hrsj]
    cases rest with
    | nil => rfl
    | cons y ys =>
      rw [pyJoin_cons_cons, pyJoin_cons_cons, List.append_assoc, List.append_assoc,
          lstrip_append_of_ne _ hlhne]
  rw [hsj]
  -- facts about the trimmed line list
  have hdsgood : ∀ l ∈ (lstrip h :: rest), cleanLine l = some l ∧ rstrip l = l ∧ '\n' ∉ l := by
    intro l hl
    rcases List.mem_cons.mp hl with rfl | hl'
    · exact ⟨hkeep', hlsfix, hnlls⟩
    · have hg := hgood l (List.mem_cons_of_mem _ hl')
      exact ⟨cleanLine_of_lineGood hg, hg.1, hg.2.1⟩
  have hdslast : ∀ (hne : (lstrip h :: rest : List Str) ≠ []),
      (lstrip h :: rest).getLast hne ≠ [] := by
    intro hne
    cases rest with
    | nil => simpa using hlhne
    | cons y ys =>
      rw [List.getLast_cons (a := lstrip h) (l := y :: ys) (by simp)]
      rw [← List.getLast_cons (a := h) (l := y :: ys) (by simp)]
      exact hlast
  have hwne : pyJoin nl (lstrip h :: rest) ≠ [] := by
    cases rest with
    | nil => exact hlhne
    | cons y ys =>
      rw [pyJoin_cons_cons, hct]
      simp
  -- evaluate the normalizer on the trimmed join
  unfold normalize_stream_text
  rw [if_neg (by simpa [List.isEmpty_iff] using hwne)]
  rw [splitlines_pyJoin _ (fun l hl => (hdsgood l hl).2.2) (by simp) (hdslast (by simp))]
  rw [map_rstrip_id (fun l hl => (hdsgood l hl).2.1)]
  rw [filterMap_cleanLine_id _ (fun l hl => (hdsgood l hl).1)]
  -- and the final strip is the identity there
  have hrsds : rstrip (pyJoin nl (lstrip h :: rest)) = pyJoin nl (lstrip h :: rest) := by
    apply rstrip_pyJoin_fix _ (by simp) (hdslast (by simp))
    exact ((hdsgood _ (List.getLast_mem (by simp))).2.1)
  have hWhead : ∃ tw, pyJoin nl (lstrip h :: rest) = c :: tw := by
    cases rest with
    | nil => exact ⟨t0, hct⟩
    | cons y ys =>
      rw [pyJoin_cons_cons, hct]
      exact ⟨t0 ++ (nl ++ pyJoin nl (y :: ys)), by simp [List.append_assoc]⟩
  obtain ⟨tw, htw⟩ := hWhead
  unfold strip
  rw [hrsds, htw, lstrip_eq_self_of_head hcns]

lemma normalize_fix_trimmed (ds : List Str) (hgood : ∀ l ∈ ds, lineGood l)
    (hhead : ∀ (hne : ds ≠ []), ds.head hne ≠ [])
    (hlast : ∀ (hne : ds ≠ []), ds.getLast hne ≠ []) :
    normalize_stream_text (strip (pyJoin nl ds)) = strip (pyJoin nl ds) := by
  cases ds with
  | nil => rfl
  | cons h t =>
    exact normalize_fix_core h t hgood (by simpa using hhead (by simp)) (hlast (by simp))

lemma normalize_strip_pyJoin_fix (cs : List Str) (hgood : ∀ l ∈ cs, lineGood l) :
    normalize_stream_text (strip (pyJoin nl cs)) = strip (pyJoin nl cs) := by
  rw [← strip_pyJoin_rdrop_blanks cs,
      ← strip_pyJoin_drop_blanks (List.rdropWhile List.isEmpty cs)]
  apply normalize_fix_trimmed
  · intro l hl
    apply hgood
    exact (List.rdropWhile_prefix _ _).sublist.mem ((List.dropWhile_suffix _).sublist.mem hl)
  · intro hne
    have h1 := List.head_dropWhile_not List.isEmpty (List.rdropWhile List.isEmpty cs) hne
    simpa [List.isEmpty_iff] using h1
  · intro hne
    have hcs1 : List.rdropWhile List.isEmpty cs ≠ [] := by
      intro hcon
      apply hne
      rw [hcon]
      rfl
    rw [getLast_of_suffix (List.dropWhile_suffix _) hne hcs1]
    have h1 := List.rdropWhile_last_not List.isEmpty cs hcs1
    simpa [List.isEmpty_iff] using h1

/-- C5: the text normalizer `_normalize_stream_text` is idempotent; any
input all of whose lines have a trimmed form starting with one of the fixed
boilerplate skip prefixes normalizes to the empty string; and the empty
input yields the empty output.  (The Lean model is a total function, so no
exception can be raised.) -/
theorem normalize_stream_text_idempotent :
    (∀ x : Str, normalize_stream_text (normalize_stream_text x) = normalize_stream_text x) ∧
    (∀ x : Str,
      (∀ l ∈ splitlines x, (skip_prefixes.any fun p => p.isPrefixOf (strip l)) = true) →
      normalize_stream_text x = []) ∧
    normalize_stream_text [] = [] := by
  refine ⟨?_, ?_, rfl⟩
  · intro x
    by_cases hx : x.isEmpty
    · rw [show normalize_stream_text x = [] from by
        unfold normalize_stream_text; rw [if_pos hx]]
      rfl
    · rw [show normalize_stream_text x
          = strip (pyJoin nl (((splitlines x).map rstrip).filterMap cleanLine)) from by
        unfold normalize_stream_text; rw [if_neg hx]]
      exact normalize_strip_pyJoin_fix _
        (cleaned_lineGood fun b hb => mem_splitlines_no_newline hb)
  · intro x hall
    unfold normalize_stream_text
    split_ifs with hx
    · rfl
    · have hnilf : ((splitlines x).map rstrip).filterMap cleanLine = [] := by
        apply List.filterMap_eq_nil_iff.mpr
        intro a ha
        obtain ⟨b, hb, rfl⟩ := List.mem_map.mp ha
        have hsp := hall b hb
        have heq : strip (rstrip b) = strip b := strip_rstrip b
        have hbne : strip b ≠ [] := by
          obtain ⟨p, hp, hpre⟩ := List.any_eq_true.mp hsp
          have hall' : ∀ q ∈ skip_prefixes, q ≠ [] := by decide
          have hpne : p ≠ [] := hall' p hp
          intro hcon
          rw [hcon] at hpre
          exact hpne (List.prefix_nil.mp (List.isPrefixOf_iff_prefix.mp hpre))
        show (if (strip (rstrip b)).isEmpty = true then some ([] : Str)
            else if (skip_prefixes.any fun p => p.isPrefixOf (strip (rstrip b))) = true then none
            else if strip (rstrip b) = [':'] then none else some (rstrip b)) = none
        rw [if_neg (by rw [heq]; simpa [List.isEmpty_iff] using hbne),
            if_pos (by rw [heq]; exact hsp)]
      rw [hnilf]
      rfl

/-- Witness for C5 at concrete inputs. -/
theorem normalize_stream_text_idempotent_witness :
    normalize_stream_text (str "Copilot is here\nToday 5") = [] ∧
    normalize_stream_text (normalize_stream_text (str " a\n\nCopilot\nb "))
      = normalize_stream_text (str " a\n\nCopilot\nb ") :=
  ⟨normalize_stream_text_idempotent.2.1 _ (by decide),
   normalize_stream_text_idempotent.1 _⟩

/-! ## The completeness heuristic (`backup/test_streaming.py`) -/

/-- `message_looks_complete` from `backup/test_streaming.py`: a message
"looks complete" iff its stripped form is non-empty, does not end in `'E'`
or a space, has at least 10 characters, and ends in one of the
`complete_endings` characters. -/
def message_looks_complete (content : Str) : Bool :=
  if (strip content).isEmpty then false
  else
    let content := strip content
    let complete_endings : List Char := ['.', '!', '?', ':', ')', '"', '`']
    let incomplete_indicators : List Bool :=
      [content.getLast? == some 'E', content.getLast? == some ' ',
       decide (content.length < 10)]
    if incomplete_indicators.any id then false
    else if complete_endings.any (fun e => content.getLast? == some e) then true
    else false

/-- C4 counterexample: the claim asserts `"Done."` and `"ok)"` evaluate as
complete, but both are shorter than the 10-character minimum the heuristic
imposes, so `message_looks_complete` returns `false` on them. -/
theorem message_looks_complete_counterexample :
    message_looks_complete (str "Done.") = false ∧
    message_looks_complete (str "ok)") = false := by decide

/-- C4 (amended): the heuristic evaluates the four fixed examples as
`"Hi"` → not complete, `"Loading "` → not complete, `"Done."` → not
complete and `"ok)"` → not complete (the last two fall under the
10-character minimum); a punctuation-terminated text of at least 10
characters such as `"Sure, done now."` is complete. -/
theorem message_looks_complete_examples :
    message_looks_complete (str "Hi") = false ∧
    message_looks_complete (str "Loading ") = false ∧
    message_looks_complete (str "Done.") = false ∧
    message_looks_complete (str "ok)") = false ∧
    message_looks_complete (str "Sure, done now.") = true := by decide

/-! ## Submit verification (`_send_message`) -/

/-- Python `needle in hay` for strings: contiguous-substring test. -/
def pyContains (hay needle : Str) : Bool :=
  needle.isPrefixOf hay ||
    match hay with
    | [] => false
    | _ :: t => pyContains t needle

/-- One observed attempt of `_send_message`'s retry loop: whether
`_find_textbox` returned an element, and the textbox value read back
after typing. -/
structure SendAttemptObs where
  textbox_found : Bool
  current_value : Str
deriving DecidableEq

/-- The check `message[:10] in (current_value or "")` of `_send_message`:
the send is declared successful (and Enter pressed) iff the first 10
characters of the message occur somewhere in the textbox value. -/
def sendVerified (message current_value : Str) : Bool :=
  pyContains current_value (message.take 10)

/-- The retry loop of `_send_message` (`for attempt in range(3)`), given
the per-attempt observations: returns `true` iff some attempt finds the
textbox and passes `sendVerified` (Enter pressed and the function
returns); `false` models the final raise. -/
def sendAttemptLoop (message : Str) : List SendAttemptObs → Bool
  | [] => false
  | a :: rest =>
    if a.textbox_found then
      if sendVerified message a.current_value then true
      else sendAttemptLoop message rest
    else sendAttemptLoop message rest

/-- `_send_message`, limited to its three verification attempts. -/
def send_message (message : Str) (obs : List SendAttemptObs) : Bool :=
  sendAttemptLoop message (obs.take 3)

lemma pyContains_iff (hay needle : Str) : pyContains hay needle = true ↔ needle <:+: hay := by
  induction hay with
  | nil => simp [pyContains, List.isPrefixOf_iff_prefix]
  | cons c t ih =>
    rw [show pyContains (c :: t) needle
        = (needle.isPrefixOf (c :: t) || pyContains t needle) from rfl]
    simp only [Bool.or_eq_true, List.isPrefixOf_iff_prefix, ih]
    exact (List.infix_cons_iff).symm

lemma sendAttemptLoop_iff (message : Str) (l : List SendAttemptObs) :
    sendAttemptLoop message l = true ↔
      ∃ a ∈ l, a.textbox_found = true ∧ sendVerified message a.current_value = true := by
  induction l with
  | nil => simp [sendAttemptLoop]
  | cons a rest ih =>
    by_cases hf : a.textbox_found = true
    · by_cases hv : sendVerified message a.current_value = true
      · simp [sendAttemptLoop, hf, hv]
      · simp [sendAttemptLoop, hf, hv, ih]
    · simp [sendAttemptLoop, hf, ih,
        show a.textbox_found = false from by simpa using hf]

/-- C10: submit verification is prefix-based only: the send succeeds
exactly when some of the first three attempts finds the textbox and the
message's first 10 characters occur as a substring of that attempt's
value; in particular a textbox state containing only the 10-character
prefix of a longer message verifies even though the full message is
absent. -/
theorem send_message_prefix_verification :
    (∀ (message : Str) (obs : List SendAttemptObs),
      send_message message obs = true ↔
        ∃ a ∈ obs.take 3, a.textbox_found = true ∧ (message.take 10) <:+: a.current_value) ∧
    (∃ (message v : Str), v ≠ message ∧ pyContains v message = false ∧
      sendVerified message v = true) := by
  constructor
  · intro message obs
    rw [send_message, sendAttemptLoop_iff]
    constructor
    · rintro ⟨a, ha, h1, h2⟩
      exact ⟨a, ha, h1, (pyContains_iff _ _).mp h2⟩
    · rintro ⟨a, ha, h1, h2⟩
      exact ⟨a, ha, h1, (pyContains_iff _ _).mpr h2⟩
  · exact ⟨str "Hello world from here", str "Hello worl", by decide, by decide, by decide⟩

/-- Witness for C10: a concrete send whose textbox value contains only
the 10-character prefix of the message still succeeds. -/
theorem send_message_prefix_verification_witness :
    send_message (str "Hello world from here") [⟨true, str "xx Hello worl yy"⟩] = true :=
  (send_message_prefix_verification.1 _ _).mpr
    ⟨⟨true, str "xx Hello worl yy"⟩, by decide, rfl, by decide⟩

/-! ## The poll loops -/

/-- One message block as returned by `_get_current_user_messages` /
`_get_current_ai_messages`: extracted content plus raw HTML snippet. -/
structure MessageData where
  content : Str
  html_snippet : Str
deriving DecidableEq

/-- Message roles; persisted ids are `"user_<i>"` / `"ai_<i>"`. -/
inductive Role
  | user
  | ai
deriving DecidableEq

/-- One persisted ledger record (`_save_message_by_index`). -/
structure Write where
  role : Role
  index : Nat
  data : MessageData
deriving DecidableEq

/-- The page state read during one iteration of a poll loop.  The stop
indicator is queried several times per iteration in the source; one poll
observes one page state, so a single boolean stands for all those
queries. -/
structure PollObs where
  current_user_messages : List MessageData
  current_ai_messages : List MessageData
  loading_text : Str
  stop_generating : Bool
deriving DecidableEq

/-- The baseline captured by both operations before `_send_message`:
assistant-message count, normalized text of the last assistant message,
and the loading-indicator text. -/
structure Baseline where
  start_ai_count : Nat
  baseline_last_ai_normalized : Str
  baseline_loading : Str
deriving DecidableEq

/-- The mutable state of the poll loops of `send_message_and_wait_for_ai`
and `stream_ai_response` (object fields plus loop locals). -/
structure WaitState where
  user_messages_list : List MessageData
  ai_messages_list : List MessageData
  last_user_index_written : Int
  last_ai_index_written : Int
  last_content : Str
  first_token_logged : Bool
  seen_stop_generating : Bool
  first_new_content : Bool
  unchanged_polls : Nat
deriving DecidableEq

/-- `latest = loading_text or (current_ai_messages[-1]['content'] ...)`,
normalized (lines 421-423 / 507-509). -/
def normLatest (o : PollObs) : Str :=
  normalize_stream_text
    (if o.loading_text.isEmpty then
      (match o.current_ai_messages.getLast? with
       | some m => m.content
       | none => [])
     else o.loading_text)

/-- The user-message capture block (lines 413-419, also 571-579): when
more user messages are observed than stored, the new tail is appended and
one record per new message is written at the following indices. -/
def captureUserStep (stored current : List MessageData) :
    List MessageData × List Write :=
  if stored.length < current.length then
    let new := current.drop stored.length
    (stored ++ new, new.enum.map fun p => ⟨Role.user, stored.length + p.1, p.2⟩)
  else (stored, [])

/-- Result of one blocking-loop iteration: continue polling, or return
(`finalized`) with the normalized content. -/
inductive WaitPollResult
  | cont (s : WaitState) (writes : List Write)
  | finalized (s : WaitState) (writes : List Write) (result : Str)
deriving DecidableEq

/-- The seen-stop update performed on every branch of a poll
(`if await self._is_stop_generating_present(): seen_stop_generating = True`). -/
def bumpSeen (s : WaitState) (o : PollObs) : WaitState :=
  { s with seen_stop_generating := s.seen_stop_generating || o.stop_generating }

/-- The user-capture prefix of a blocking-loop iteration (lines 410-419):
new user messages are appended and written immediately, and the last
written index becomes the final list index. -/
def userCapture (s0 : WaitState) (o : PollObs) : WaitState × List Write :=
  let captured := captureUserStep s0.user_messages_list o.current_user_messages
  ({ s0 with user_messages_list := captured.1,
             last_user_index_written :=
               if captured.2.isEmpty then s0.last_user_index_written
               else (captured.1.length : Int) - 1 }, captured.2)

/-- The still-idle guards of both loops (lines 425-439 / 510-524): the
poll is skipped (after remembering the stop indicator) when the canonical
text is empty, when the loading text is present but equals its baseline,
or when no loading text is present, the assistant count has not grown and
the text equals the assistant baseline. -/
def stillIdle (b : Baseline) (o : PollObs) : Bool :=
  (normLatest o).isEmpty ||
    (if !o.loading_text.isEmpty then o.loading_text == b.baseline_loading
     else decide (o.current_ai_messages.length ≤ b.start_ai_count) &&
       normLatest o == b.baseline_last_ai_normalized)

/-- The change-tracker update of both loops (lines 441-459 / 526-545): a
changed text sets the first-token and first-new-content flags, resets the
unchanged-polls counter and records the text; an unchanged text after a
first change increments the counter; the seen-stop flag absorbs the
current stop indicator in all cases. -/
def trackerUpdate (s1 : WaitState) (o : PollObs) : WaitState :=
  let seen := s1.seen_stop_generating || o.stop_generating
  if normLatest o ≠ s1.last_content then
    { s1 with first_token_logged := true, first_new_content := true,
              unchanged_polls := 0, last_content := normLatest o,
              seen_stop_generating := seen }
  else if s1.first_new_content then
    { s1 with unchanged_polls := s1.unchanged_polls + 1, seen_stop_generating := seen }
  else { s1 with seen_stop_generating := seen }

/-- The finalize test of both loops (lines 461-462 / 547-548), evaluated
on the updated tracker state: a change has been seen, the stop indicator
is not currently present, and it was seen earlier or the counter reached
6. -/
def finalizeCheck (s2 : WaitState) (o : PollObs) : Bool :=
  s2.first_new_content && !o.stop_generating &&
    (s2.seen_stop_generating || decide (s2.unchanged_polls ≥ 6))

/-- One iteration of the poll loop of `send_message_and_wait_for_ai`
(lines 407-473) as a pure function of the loop state and the observation:
capture new user messages; skip still-idle polls; otherwise update the
change tracker and, when `finalizeCheck` passes and the assistant list is
non-empty with a non-blank normalized last message, write that message at
index `len-1` and return its normalized content. -/
def waitPoll (b : Baseline) (s0 : WaitState) (o : PollObs) : WaitPollResult :=
  let u := userCapture s0 o
  if stillIdle b o then .cont (bumpSeen u.1 o) u.2
  else
    let s2 := trackerUpdate u.1 o
    if finalizeCheck s2 o then
      match o.current_ai_messages.getLast? with
      | some md =>
        let last_index := o.current_ai_messages.length - 1
        let normalized_content := normalize_stream_text md.content
        if normalized_content.isEmpty then .cont s2 u.2
        else
          .finalized { s2 with ai_messages_list := o.current_ai_messages,
                               last_ai_index_written := (last_index : Int) }
            (u.2 ++ [⟨Role.ai, last_index, md⟩]) normalized_content
      | none => .cont s2 u.2
    else .cont s2 u.2

/-- The loop state right after `_send_message` (lines 400-405), given the
session's pre-send ledger state. -/
def initWaitState (b : Baseline) (userList aiList : List MessageData)
    (lastUser lastAi : Int) : WaitState :=
  { user_messages_list := userList, ai_messages_list := aiList,
    last_user_index_written := lastUser, last_ai_index_written := lastAi,
    last_content := b.baseline_last_ai_normalized,
    first_token_logged := false, seen_stop_generating := false,
    first_new_content := false, unchanged_polls := 0 }

/-- Outcome of the blocking operation. -/
inductive WaitOutcome
  | timedOut
  | ok (content : Str)
deriving DecidableEq

/-- The blocking poll loop over a finite observation sequence; exhausting
the sequence without finalizing models `raise TimeoutError`.  Returns all
persisted writes in order together with the outcome. -/
def runWait (b : Baseline) : WaitState → List PollObs → List Write × WaitOutcome
  | _, [] => ([], .timedOut)
  | s, o :: rest =>
    match waitPoll b s o with
    | .cont s' w =>
      let r := runWait b s' rest
      (w ++ r.1, r.2)
    | .finalized _ w content => (w, .ok content)

/-- Result of one streaming-loop iteration: the optional delta yielded on
this poll, and whether the generator returned (`finalized`, with the
finalize-time write, if any). -/
inductive StreamPollResult
  | cont (s : WaitState) (delta : Option Str)
  | finalized (s : WaitState) (delta : Option Str) (writes : List Write)
deriving DecidableEq

/-- The delta yielded by one streaming poll (line 542): the full changed
canonical text, or nothing when the text is unchanged. -/
def pollDelta (s1 : WaitState) (o : PollObs) : Option Str :=
  if normLatest o ≠ s1.last_content then some (normLatest o) else none

/-- One iteration of the poll loop of `stream_ai_response` (lines
503-552): same structure as the blocking loop, except that no user
messages are captured, a changed canonical text is yielded in full as the
delta, and finalization saves the last assistant message (when the list
is non-empty — with no emptiness check of its normalized content) and
ends the generator. -/
def streamPoll (b : Baseline) (s1 : WaitState) (o : PollObs) : StreamPollResult :=
  if stillIdle b o then .cont (bumpSeen s1 o) none
  else
    let s2 := trackerUpdate s1 o
    if finalizeCheck s2 o then
      match o.current_ai_messages.getLast? with
      | some md =>
        .finalized { s2 with
            last_ai_index_written := ((o.current_ai_messages.length - 1 : Nat) : Int) }
          (pollDelta s1 o) [⟨Role.ai, o.current_ai_messages.length - 1, md⟩]
      | none => .finalized s2 (pollDelta s1 o) []
    else .cont s2 (pollDelta s1 o)

/-- Outcome of the streaming operation. -/
inductive StreamOutcome
  | timedOut
  | done
deriving DecidableEq

/-- The streaming poll loop: returns the yielded deltas in order, the
finalize-time writes, and the outcome. -/
def runStream (b : Baseline) : WaitState → List PollObs → List Str × List Write × StreamOutcome
  | _, [] => ([], [], .timedOut)
  | s, o :: rest =>
    match streamPoll b s o with
    | .cont s' d =>
      let r := runStream b s' rest
      (d.toList ++ r.1, r.2.1, r.2.2)
    | .finalized _ d w => (d.toList, w, .done)

/-! ## Projection lemmas for the poll-step helpers -/

@[simp] lemma bumpSeen_last_content (s : WaitState) (o : PollObs) :
    (bumpSeen s o).last_content = s.last_content := rfl

@[simp] lemma bumpSeen_fnc (s : WaitState) (o : PollObs) :
    (bumpSeen s o).first_new_content = s.first_new_content := rfl

@[simp] lemma bumpSeen_unchanged (s : WaitState) (o : PollObs) :
    (bumpSeen s o).unchanged_polls = s.unchanged_polls := rfl

@[simp] lemma bumpSeen_seen (s : WaitState) (o : PollObs) :
    (bumpSeen s o).seen_stop_generating
      = (s.seen_stop_generating || o.stop_generating) := rfl

@[simp] lemma userCapture_last_content (s : WaitState) (o : PollObs) :
    (userCapture s o).1.last_content = s.last_content := rfl

@[simp] lemma userCapture_fnc (s : WaitState) (o : PollObs) :
    (userCapture s o).1.first_new_content = s.first_new_content := rfl

@[simp] lemma userCapture_unchanged (s : WaitState) (o : PollObs) :
    (userCapture s o).1.unchanged_polls = s.unchanged_polls := rfl

@[simp] lemma userCapture_seen (s : WaitState) (o : PollObs) :
    (userCapture s o).1.seen_stop_generating = s.seen_stop_generating := rfl

lemma trackerUpdate_of_changed {s1 : WaitState} {o : PollObs}
    (h : normLatest o ≠ s1.last_content) :
    trackerUpdate s1 o =
      { s1 with first_token_logged := true, first_new_content := true,
                unchanged_polls := 0, last_content := normLatest o,
                seen_stop_generating := s1.seen_stop_generating || o.stop_generating } := by
  unfold trackerUpdate
  rw [if_pos h]

lemma trackerUpdate_of_unchanged_fnc {s1 : WaitState} {o : PollObs}
    (h : normLatest o = s1.last_content) (hf : s1.first_new_content = true) :
    trackerUpdate s1 o =
      { s1 with unchanged_polls := s1.unchanged_polls + 1,
                seen_stop_generating := s1.seen_stop_generating || o.stop_generating } := by
  unfold trackerUpdate
  rw [if_neg (by simp [h]), if_pos hf]

lemma trackerUpdate_of_unchanged_quiet {s1 : WaitState} {o : PollObs}
    (h : normLatest o = s1.last_content) (hf : s1.first_new_content = false) :
    trackerUpdate s1 o = bumpSeen s1 o := by
  unfold trackerUpdate bumpSeen
  rw [if_neg (by simp [h]), if_neg (by simp [hf])]

lemma finalizeCheck_false_of_not_fnc {s2 : WaitState} {o : PollObs}
    (h : s2.first_new_content = false) : finalizeCheck s2 o = false := by
  simp [finalizeCheck, h]

/-! ## C1: the finalize condition -/

/-- The amended finalize condition of C1, over the pre-poll state and the
observation (tracker values evaluated after this poll's update): the poll
passes the still-idle guards (which force a non-empty canonical text),
the stop indicator is *not currently observed*, a content change has been
observed now or earlier, and either the stop indicator was observed
earlier or the updated unchanged-polls counter reaches the threshold 6. -/
def finalizeTriggerSpec (b : Baseline) (s : WaitState) (o : PollObs) : Prop :=
  stillIdle b o = false ∧ o.stop_generating = false ∧
  (s.first_new_content = true ∨ normLatest o ≠ s.last_content) ∧
  (s.seen_stop_generating = true ∨
    (normLatest o = s.last_content ∧ s.first_new_content = true ∧
      6 ≤ s.unchanged_polls + 1))

lemma finalizeCheck_trackerUpdate (s1 : WaitState) (o : PollObs) :
    finalizeCheck (trackerUpdate s1 o) o = true ↔
      (o.stop_generating = false ∧
       (s1.first_new_content = true ∨ normLatest o ≠ s1.last_content) ∧
       (s1.seen_stop_generating = true ∨
         (normLatest o = s1.last_content ∧ s1.first_new_content = true ∧
           6 ≤ s1.unchanged_polls + 1))) := by
  by_cases hchg : normLatest o ≠ s1.last_content
  · rw [trackerUpdate_of_changed hchg]
    cases hstop : o.stop_generating <;> cases hseen : s1.seen_stop_generating <;>
      simp [finalizeCheck, hchg, hstop, hseen]
  · push_neg at hchg
    cases hfnc : s1.first_new_content
    · rw [trackerUpdate_of_unchanged_quiet hchg hfnc]
      cases hstop : o.stop_generating <;>
        simp [finalizeCheck, hchg, hfnc, hstop]
    · rw [trackerUpdate_of_unchanged_fnc hchg hfnc]
      cases hstop : o.stop_generating <;> cases hseen : s1.seen_stop_generating <;>
        simp [finalizeCheck, hchg, hfnc, hstop, hseen]

/-- C1 (amended): each loop finalizes on a poll exactly when the poll
passes the still-idle guards, the stop indicator is not currently
observed, a content change has been observed (this poll or earlier), and
either the stop indicator was observed earlier or the unchanged-polls
counter (after this poll's update) has reached the threshold 6; the
blocking loop additionally requires a non-empty assistant message list
whose last message normalizes to non-empty text. -/
theorem finalize_condition_characterized (b : Baseline) (s : WaitState) (o : PollObs) :
    ((∃ s' w r, waitPoll b s o = .finalized s' w r) ↔
      (finalizeTriggerSpec b s o ∧
        ∃ md, o.current_ai_messages.getLast? = some md ∧
          normalize_stream_text md.content ≠ [])) ∧
    ((∃ s' d w, streamPoll b s o = .finalized s' d w) ↔ finalizeTriggerSpec b s o) := by
  have hfcU := finalizeCheck_trackerUpdate ((userCapture s o).1) o
  simp only [userCapture_fnc, userCapture_last_content, userCapture_seen,
    userCapture_unchanged] at hfcU
  have hfcS := finalizeCheck_trackerUpdate s o
  constructor
  · unfold waitPoll
    by_cases hidle : stillIdle b o = true
    · rw [if_pos hidle]
      refine iff_of_false ?_ ?_
      · rintro ⟨_, _, _, h⟩
        exact absurd h (by simp)
      · rintro ⟨⟨hi, _⟩, _⟩
        rw [hidle] at hi
        exact absurd hi (by simp)
    · rw [if_neg hidle]
      by_cases hf : finalizeCheck (trackerUpdate (userCapture s o).1 o) o = true
      · rw [if_pos hf]
        rw [hfcU] at hf
        cases hml : o.current_ai_messages.getLast? with
        | none =>
          refine iff_of_false ?_ ?_
          · rintro ⟨_, _, _, h⟩
            exact absurd h (by simp)
          · rintro ⟨_, md', hmd', _⟩
            exact absurd hmd' (by simp)
        | some md =>
          dsimp only
          by_cases hemp : (normalize_stream_text md.content).isEmpty
          · rw [if_pos hemp]
            refine iff_of_false ?_ ?_
            · rintro ⟨_, _, _, h⟩
              exact absurd h (by simp)
            · rintro ⟨_, md', hmd', hne⟩
              obtain rfl : md = md' := by simpa using hmd'
              exact hne (List.isEmpty_iff.mp hemp)
          · rw [if_neg hemp]
            exact iff_of_true ⟨_, _, _, rfl⟩
              ⟨⟨by simpa using hidle, hf.1, hf.2.1, hf.2.2⟩, md, rfl,
                fun hc => hemp (List.isEmpty_iff.mpr hc)⟩
      · rw [if_neg hf]
        rw [hfcU] at hf
        refine iff_of_false ?_ ?_
        · rintro ⟨_, _, _, h⟩
          exact absurd h (by simp)
        · rintro ⟨htr, _⟩
          exact absurd ⟨htr.2.1, htr.2.2.1, htr.2.2.2⟩ hf
  · unfold streamPoll
    by_cases hidle : stillIdle b o = true
    · rw [if_pos hidle]
      refine iff_of_false ?_ ?_
      · rintro ⟨_, _, _, h⟩
        exact absurd h (by simp)
      · rintro ⟨hi, _⟩
        rw [hidle] at hi
        exact absurd hi (by simp)
    · rw [if_neg hidle]
      by_cases hf : finalizeCheck (trackerUpdate s o) o = true
      · rw [if_pos hf]
        rw [hfcS] at hf
        cases hml : o.current_ai_messages.getLast? with
        | none =>
          exact iff_of_true ⟨_, _, _, rfl⟩
            ⟨by simpa using hidle, hf.1, hf.2.1, hf.2.2⟩
        | some md =>
          exact iff_of_true ⟨_, _, _, rfl⟩
            ⟨by simpa using hidle, hf.1, hf.2.1, hf.2.2⟩
      · rw [if_neg hf]
        rw [hfcS] at hf
        refine iff_of_false ?_ ?_
        · rintro ⟨_, _, _, h⟩
          exact absurd h (by simp)
        · rintro htr
          exact absurd ⟨htr.2.1, htr.2.2.1, htr.2.2.2⟩ hf

/-- C1 counterexample: on a poll where the unchanged-polls counter has
reached the threshold 6, a content change has been observed, and the
canonical text is non-empty, but the stop indicator is currently visible,
the claim requires finalization — yet both loops continue (the counter
branch does not suffice without the stop indicator being absent). -/
theorem finalize_stop_present_counterexample :
    waitPoll ⟨0, [], []⟩
      { user_messages_list := [], ai_messages_list := [],
        last_user_index_written := -1, last_ai_index_written := -1,
        last_content := str "Hello there!", first_token_logged := true,
        seen_stop_generating := true, first_new_content := true, unchanged_polls := 6 }
      { current_user_messages := [],
        current_ai_messages := [⟨str "Hello there!", []⟩],
        loading_text := [], stop_generating := true }
      = WaitPollResult.cont
        { user_messages_list := [], ai_messages_list := [],
          last_user_index_written := -1, last_ai_index_written := -1,
          last_content := str "Hello there!", first_token_logged := true,
          seen_stop_generating := true, first_new_content := true, unchanged_polls := 7 }
        [] ∧
    streamPoll ⟨0, [], []⟩
      { user_messages_list := [], ai_messages_list := [],
        last_user_index_written := -1, last_ai_index_written := -1,
        last_content := str "Hello there!", first_token_logged := true,
        seen_stop_generating := true, first_new_content := true, unchanged_polls := 6 }
      { current_user_messages := [],
        current_ai_messages := [⟨str "Hello there!", []⟩],
        loading_text := [], stop_generating := true }
      = StreamPollResult.cont
        { user_messages_list := [], ai_messages_list := [],
          last_user_index_written := -1, last_ai_index_written := -1,
          last_content := str "Hello there!", first_token_logged := true,
          seen_stop_generating := true, first_new_content := true, unchanged_polls := 7 }
        none ∧
    normLatest
      { current_user_messages := [],
        current_ai_messages := [⟨str "Hello there!", []⟩],
        loading_text := [], stop_generating := true } ≠ [] := by decide

/-! ## C3: the stability counter -/

/-- C3 (amended): the counter increments exactly when the newly observed
canonical *text* equals the previous poll's text (not merely its length)
and a content change has been observed since the send; it resets to 0 on
any change; and in a fixed-text scenario (one changed poll, then
identical polls) the blocking loop finalizes exactly on the poll where
the counter first reaches the threshold 6 — the 7th poll — and on no
earlier poll. -/
theorem stability_counter_behaviour :
    (∀ (s1 : WaitState) (o : PollObs),
      ((trackerUpdate s1 o).unchanged_polls = s1.unchanged_polls + 1 ↔
        (normLatest o = s1.last_content ∧ s1.first_new_content = true)) ∧
      (normLatest o ≠ s1.last_content → (trackerUpdate s1 o).unchanged_polls = 0)) ∧
    (∀ k, k < 7 →
      (runWait ⟨0, [], []⟩ (initWaitState ⟨0, [], []⟩ [] [] (-1) (-1))
        (List.replicate k ⟨[], [⟨str "Hello!", []⟩], [], false⟩)).2
        = WaitOutcome.timedOut) ∧
    (runWait ⟨0, [], []⟩ (initWaitState ⟨0, [], []⟩ [] [] (-1) (-1))
        (List.replicate 7 ⟨[], [⟨str "Hello!", []⟩], [], false⟩)).2
      = WaitOutcome.ok (str "Hello!") := by
  refine ⟨?_, by decide, by decide⟩
  intro s1 o
  constructor
  · by_cases hchg : normLatest o ≠ s1.last_content
    · rw [trackerUpdate_of_changed hchg]
      simp only []
      constructor
      · intro h
        exact absurd h.symm (Nat.succ_ne_zero _)
      · rintro ⟨h, _⟩
        exact absurd h hchg
    · push_neg at hchg
      cases hfnc : s1.first_new_content
      · rw [trackerUpdate_of_unchanged_quiet hchg hfnc]
        simp only [bumpSeen_unchanged]
        constructor
        · intro h
          exact absurd h (Nat.ne_of_lt (Nat.lt_succ_self _))
        · rintro ⟨_, h⟩
          exact absurd h (by simp [hfnc])
      · rw [trackerUpdate_of_unchanged_fnc hchg hfnc]
        exact iff_of_true rfl ⟨hchg, rfl⟩
  · intro hchg
    rw [trackerUpdate_of_changed hchg]

/-- Witness for C3: the increment rule applied at a poll with unchanged
text, and a 3-poll run of the threshold scenario (still short of the
threshold: times out). -/
theorem stability_counter_behaviour_witness :
    (trackerUpdate
      { user_messages_list := [], ai_messages_list := [],
        last_user_index_written := -1, last_ai_index_written := -1,
        last_content := str "alpha", first_token_logged := true,
        seen_stop_generating := false, first_new_content := true, unchanged_polls := 3 }
      { current_user_messages := [], current_ai_messages := [⟨str "gamma", []⟩],
        loading_text := [], stop_generating := false }).unchanged_polls = 0 ∧
    (runWait ⟨0, [], []⟩ (initWaitState ⟨0, [], []⟩ [] [] (-1) (-1))
        (List.replicate 3 ⟨[], [⟨str "Hello!", []⟩], [], false⟩)).2
      = WaitOutcome.timedOut :=
  ⟨(stability_counter_behaviour.1 _ _).2 (by decide),
   stability_counter_behaviour.2.1 3 (by decide)⟩

/-- C3 counterexample: a poll whose newly observed text has the same
*length* as the previous poll's text but different contents resets the
counter to 0 instead of incrementing it — the counter tracks text
equality, not length equality. -/
theorem stability_counter_length_counterexample :
    (normLatest
      { current_user_messages := [], current_ai_messages := [⟨str "gamma", []⟩],
        loading_text := [], stop_generating := false }).length
      = (str "alpha").length ∧
    waitPoll ⟨0, [], []⟩
      { user_messages_list := [], ai_messages_list := [],
        last_user_index_written := -1, last_ai_index_written := -1,
        last_content := str "alpha", first_token_logged := true,
        seen_stop_generating := false, first_new_content := true, unchanged_polls := 3 }
      { current_user_messages := [], current_ai_messages := [⟨str "gamma", []⟩],
        loading_text := [], stop_generating := false }
      = WaitPollResult.cont
        { user_messages_list := [], ai_messages_list := [],
          last_user_index_written := -1, last_ai_index_written := -1,
          last_content := str "gamma", first_token_logged := true,
          seen_stop_generating := false, first_new_content := true, unchanged_polls := 0 }
        [] := by decide

/-! ## C9: user-message capture discipline -/

/-- The writes persisted by one blocking-loop iteration. -/
def WaitPollResult.writes : WaitPollResult → List Write
  | .cont _ w => w
  | .finalized _ w _ => w

/-- The writes persisted by one streaming-loop iteration. -/
def StreamPollResult.writes : StreamPollResult → List Write
  | .cont _ _ => []
  | .finalized _ _ w => w

lemma captureUserStep_roles (stored current : List MessageData) :
    ∀ w ∈ (captureUserStep stored current).2, w.role = Role.user := by
  unfold captureUserStep
  split_ifs with h
  · intro w hw
    simp only [List.mem_map] at hw
    obtain ⟨p, _, rfl⟩ := hw
    rfl
  · intro w hw
    simp at hw

lemma captureUserStep_indices (stored current : List MessageData) :
    (captureUserStep stored current).2.map Write.index
      = if stored.length < current.length
        then List.range' stored.length (current.length - stored.length) else [] := by
  unfold captureUserStep
  split_ifs with h
  · simp only [List.map_map]
    rw [show (Write.index ∘ fun p : Nat × MessageData =>
        (⟨Role.user, stored.length + p.1, p.2⟩ : Write)) = fun p => stored.length + p.1
      from rfl]
    rw [show (fun p : Nat × MessageData => stored.length + p.1)
        = ((fun i => stored.length + i) ∘ Prod.fst) from rfl]
    rw [← List.map_map, List.enum_map_fst, ← List.range'_eq_map_range,
        List.length_drop]
  · rfl

/-- C9 (amended): in the blocking loop every newly observed user message
is ledgered immediately on the poll where it appears — the poll's
user-role writes are exactly the capture step's writes, whether or not
the assistant message finalizes on that poll — with consecutive indices
continuing the in-memory list; the streaming loop, by contrast, never
persists user messages at all. -/
theorem user_capture_discipline :
    (∀ (b : Baseline) (s : WaitState) (o : PollObs),
      (waitPoll b s o).writes.filter (fun w => w.role == Role.user)
        = (captureUserStep s.user_messages_list o.current_user_messages).2) ∧
    (∀ (stored current : List MessageData),
      (captureUserStep stored current).2.map Write.index
        = if stored.length < current.length
          then List.range' stored.length (current.length - stored.length) else []) ∧
    (∀ (b : Baseline) (s : WaitState) (o : PollObs),
      (streamPoll b s o).writes.filter (fun w => w.role == Role.user) = []) := by
  refine ⟨?_, captureUserStep_indices, ?_⟩
  · intro b s o
    have hfiltU : (captureUserStep s.user_messages_list o.current_user_messages).2.filter
        (fun w => w.role == Role.user)
        = (captureUserStep s.user_messages_list o.current_user_messages).2 :=
      List.filter_eq_self.mpr
        (fun w hw => by simp [captureUserStep_roles _ _ w hw])
    unfold waitPoll
    by_cases hidle : stillIdle b o = true
    · rw [if_pos hidle]
      exact hfiltU
    · rw [if_neg hidle]
      by_cases hf : finalizeCheck (trackerUpdate (userCapture s o).1 o) o = true
      · rw [if_pos hf]
        cases hml : o.current_ai_messages.getLast? with
        | none => exact hfiltU
        | some md =>
          dsimp only
          by_cases hemp : (normalize_stream_text md.content).isEmpty
          · rw [if_pos hemp]
            exact hfiltU
          · rw [if_neg hemp]
            show ((userCapture s o).2
                ++ ([⟨Role.ai, o.current_ai_messages.length - 1, md⟩] : List Write)).filter
                (fun w => w.role == Role.user) = _
            rw [List.filter_append,
              show List.filter (fun w => w.role == Role.user)
                ([⟨Role.ai, o.current_ai_messages.length - 1, md⟩] : List Write) = [] from rfl,
              List.append_nil]
            exact hfiltU
      · rw [if_neg hf]
        exact hfiltU
  · intro b s o
    unfold streamPoll
    by_cases hidle : stillIdle b o = true
    · rw [if_pos hidle]
      rfl
    · rw [if_neg hidle]
      by_cases hf : finalizeCheck (trackerUpdate s o) o = true
      · rw [if_pos hf]
        cases hml : o.current_ai_messages.getLast? with
        | none => rfl
        | some md => rfl
      · rw [if_neg hf]
        rfl

/-- Witness for C9 at a concrete poll observation. -/
theorem user_capture_discipline_witness :
    (waitPoll ⟨0, [], []⟩ (initWaitState ⟨0, [], []⟩ [] [] (-1) (-1))
      ⟨[⟨str "question", []⟩], [⟨str "Hi there", []⟩], [], false⟩).writes.filter
        (fun w => w.role == Role.user)
      = (captureUserStep [] [⟨str "question", []⟩]).2 ∧
    (streamPoll ⟨0, [], []⟩ (initWaitState ⟨0, [], []⟩ [] [] (-1) (-1))
      ⟨[⟨str "question", []⟩], [⟨str "Hi there", []⟩], [], false⟩).writes.filter
        (fun w => w.role == Role.user) = [] :=
  ⟨user_capture_discipline.1 _ _ _, user_capture_discipline.2.2 _ _ _⟩

/-! ## C6: ledger index discipline -/

/-- The ledger state touched by `_capture_messages`. -/
structure CaptureState where
  user_messages_list : List MessageData
  ai_messages_list : List MessageData
  last_user_index_written : Int
  last_ai_index_written : Int
deriving DecidableEq

/-- The page state read by one `_capture_messages` call. -/
structure CaptureObs where
  current_user_messages : List MessageData
  current_ai_messages : List MessageData
  loading_present : Bool
deriving DecidableEq

/-- The body of `for i, message_data in enumerate(new_ai_messages)` in
`_capture_messages` (lines 584-588): `message_index` is computed as
`len(self.ai_messages_list) + i` with the list length *re-read after the
previous iterations' appends*, then the message is appended and written —
so the `i`-th new message is written at index `stored_len + 2*i`, not at
the next consecutive index. -/
def captureAiLoop : List MessageData → Nat → List MessageData → List MessageData × List Write
  | ai_messages_list, _, [] => (ai_messages_list, [])
  | ai_messages_list, i, message_data :: rest =>
    let message_index := ai_messages_list.length + i
    let r := captureAiLoop (ai_messages_list ++ [message_data]) (i + 1) rest
    (r.1, ⟨Role.ai, message_index, message_data⟩ :: r.2)

/-- The assistant-message capture block of `_capture_messages` (lines
581-589): when more assistant messages are observed than stored and no
loading indicator is present, the new tail is appended one message at a
time by `captureAiLoop`. -/
def captureAiStep (stored current : List MessageData) (loading_present : Bool) :
    List MessageData × List Write :=
  if stored.length < current.length ∧ loading_present = false then
    captureAiLoop stored 0 (current.drop stored.length)
  else (stored, [])

/-- `_capture_messages` (lines 559-595): capture new user messages (at
consecutive indices — the user list is extended *before* its write loop),
then new assistant messages via `captureAiLoop`; each role's last-written
index ends at the index of its final write of the call. -/
def capture_messages (s : CaptureState) (o : CaptureObs) : CaptureState × List Write :=
  let cu := captureUserStep s.user_messages_list o.current_user_messages
  let lastUser : Int :=
    if cu.2.isEmpty then s.last_user_index_written else (cu.1.length : Int) - 1
  let ca := captureAiStep s.ai_messages_list o.current_ai_messages o.loading_present
  let lastAi : Int :=
    match ca.2.getLast? with
    | none => s.last_ai_index_written
    | some w => (w.index : Int)
  (⟨cu.1, ca.1, lastUser, lastAi⟩, cu.2 ++ ca.2)

/-- The continuous-capture loop (`start_capture`) restricted to its
per-iteration `_capture_messages` calls. -/
def runCapture : CaptureState → List CaptureObs → CaptureState × List Write
  | s, [] => (s, [])
  | s, o :: rest =>
    let r := capture_messages s o
    let rr := runCapture r.1 rest
    (rr.1, r.2 ++ rr.2)

/-- The index a write persists for a given role, `none` for the other
role. -/
def roleIdx (r : Role) (w : Write) : Option Nat :=
  if w.role = r then some w.index else none

lemma filterMap_roleIdx_all {r : Role} {ws : List Write} (h : ∀ w ∈ ws, w.role = r) :
    ws.filterMap (roleIdx r) = ws.map Write.index := by
  induction ws with
  | nil => rfl
  | cons w ws ih =>
    rw [List.filterMap_cons, List.map_cons,
      show roleIdx r w = some w.index from by simp [roleIdx, h w (by simp)],
      ih (fun w' hw' => h w' (List.mem_cons_of_mem _ hw'))]

lemma filterMap_roleIdx_none {r r' : Role} (hne : r' ≠ r) {ws : List Write}
    (h : ∀ w ∈ ws, w.role = r') : ws.filterMap (roleIdx r) = [] := by
  induction ws with
  | nil => rfl
  | cons w ws ih =>
    rw [List.filterMap_cons,
      show roleIdx r w = none from by simp [roleIdx, h w (by simp)]; exact hne,
      ih (fun w' hw' => h w' (List.mem_cons_of_mem _ hw'))]

lemma captureUserStep_length (stored current : List MessageData) :
    (captureUserStep stored current).1.length
      = if stored.length < current.length then current.length else stored.length := by
  unfold captureUserStep
  split_ifs with h
  · simp only [List.length_append, List.length_drop]
    omega
  · rfl

lemma captureUserStep_writes_empty (stored current : List MessageData) :
    ((captureUserStep stored current).2 = []) ↔ ¬ stored.length < current.length := by
  unfold captureUserStep
  split_ifs with h
  · simp only [List.map_eq_nil_iff, List.enum_eq_nil, List.drop_eq_nil_iff]
    omega
  · simpa using h

lemma captureAiLoop_list : ∀ (new list : List MessageData) (i : Nat),
    (captureAiLoop list i new).1 = list ++ new := by
  intro new
  induction new with
  | nil =>
    intro list i
    simp [captureAiLoop]
  | cons md rest ih =>
    intro list i
    show (captureAiLoop (list ++ [md]) (i + 1) rest).1 = _
    rw [ih]
    simp

lemma captureAiLoop_roles : ∀ (new list : List MessageData) (i : Nat),
    ∀ w ∈ (captureAiLoop list i new).2, w.role = Role.ai := by
  intro new
  induction new with
  | nil =>
    intro list i w hw
    simp [captureAiLoop] at hw
  | cons md rest ih =>
    intro list i w hw
    have hw' : w ∈ (⟨Role.ai, list.length + i, md⟩ : Write)
        :: (captureAiLoop (list ++ [md]) (i + 1) rest).2 := hw
    rcases List.mem_cons.mp hw' with rfl | hmem
    · rfl
    · exact ih (list ++ [md]) (i + 1) w hmem

lemma captureAiLoop_indices : ∀ (new list : List MessageData) (i : Nat),
    (captureAiLoop list i new).2.map Write.index
      = (List.range new.length).map (fun j => list.length + i + 2 * j) := by
  intro new
  induction new with
  | nil => intro list i; rfl
  | cons md rest ih =>
    intro list i
    show (list.length + i)
        :: ((captureAiLoop (list ++ [md]) (i + 1) rest).2.map Write.index) = _
    rw [ih (list ++ [md]) (i + 1), List.length_cons, List.range_succ_eq_map,
      List.map_cons, List.map_map]
    congr 1
    apply List.map_congr_left
    intro j _
    simp only [Function.comp, List.length_append, List.length_singleton]
    omega

lemma captureAiLoop_writes_length : ∀ (new list : List MessageData) (i : Nat),
    (captureAiLoop list i new).2.length = new.length := by
  intro new
  induction new with
  | nil => intro list i; rfl
  | cons md rest ih =>
    intro list i
    show (captureAiLoop (list ++ [md]) (i + 1) rest).2.length + 1 = rest.length + 1
    rw [ih]

lemma captureAiStep_roles (stored current : List MessageData) (lp : Bool) :
    ∀ w ∈ (captureAiStep stored current lp).2, w.role = Role.ai := by
  unfold captureAiStep
  split_ifs with h
  · exact captureAiLoop_roles _ stored 0
  · intro w hw
    simp at hw

lemma captureAiStep_list (stored current : List MessageData) (lp : Bool) :
    (captureAiStep stored current lp).1
      = if stored.length < current.length ∧ lp = false
        then stored ++ current.drop stored.length else stored := by
  unfold captureAiStep
  split_ifs with h
  · exact captureAiLoop_list _ stored 0
  · rfl

/-- The closed form of the assistant capture loop's write indices: the
`i`-th of `k` new assistant messages is persisted at `stored_len + 2*i`,
not at the next consecutive index. -/
lemma captureAiStep_indices (stored current : List MessageData) (lp : Bool) :
    (captureAiStep stored current lp).2.map Write.index
      = if stored.length < current.length ∧ lp = false
        then (List.range (current.length - stored.length)).map
               (fun i => stored.length + 2 * i)
        else [] := by
  unfold captureAiStep
  split_ifs with h
  · rw [captureAiLoop_indices, List.length_drop]
    apply List.map_congr_left
    intro j _
    omega
  · rfl

lemma captureAiStep_writes_empty (stored current : List MessageData) (lp : Bool) :
    ((captureAiStep stored current lp).2 = [])
      ↔ ¬ (stored.length < current.length ∧ lp = false) := by
  unfold captureAiStep
  split_ifs with h
  · have h1 := h.1
    refine iff_of_false ?_ (not_not_intro h)
    intro hcon
    have hlen := captureAiLoop_writes_length (current.drop stored.length) stored 0
    rw [hcon] at hlen
    simp only [List.length_nil, List.length_drop] at hlen
    omega
  · simpa using h

lemma range'_glue {a b c : Nat} (h1 : a ≤ b) (h2 : b ≤ c) :
    List.range' a (b - a) ++ List.range' b (c - b) = List.range' a (c - a) := by
  have h := List.range'_append_1 a (b - a) (c - b)
  rw [Nat.add_sub_cancel' h1] at h
  rw [show (c - b) + (b - a) = c - a from by omega] at h
  exact h

lemma capture_messages_spec (s : CaptureState) (o : CaptureObs) :
    s.user_messages_list.length ≤ (capture_messages s o).1.user_messages_list.length ∧
    (capture_messages s o).2.filterMap (roleIdx Role.user)
      = List.range' s.user_messages_list.length
          ((capture_messages s o).1.user_messages_list.length
            - s.user_messages_list.length) ∧
    (s.last_user_index_written = (s.user_messages_list.length : Int) - 1 →
      (capture_messages s o).1.last_user_index_written
        = ((capture_messages s o).1.user_messages_list.length : Int) - 1) := by
  have hcu_len := captureUserStep_length s.user_messages_list o.current_user_messages
  have hulen : (capture_messages s o).1.user_messages_list.length
      = (captureUserStep s.user_messages_list o.current_user_messages).1.length := rfl
  refine ⟨?_, ?_, ?_⟩
  · rw [hulen, hcu_len]
    split_ifs with h <;> omega
  · show ((captureUserStep s.user_messages_list o.current_user_messages).2
        ++ (captureAiStep s.ai_messages_list o.current_ai_messages o.loading_present).2).filterMap
        (roleIdx Role.user) = _
    rw [List.filterMap_append,
      filterMap_roleIdx_all (captureUserStep_roles _ _),
      filterMap_roleIdx_none (by simp) (captureAiStep_roles _ _ _),
      List.append_nil, captureUserStep_indices, hulen, hcu_len]
    split_ifs with h
    · rfl
    · rw [Nat.sub_self]
      rfl
  · intro hinv
    show (if (captureUserStep s.user_messages_list o.current_user_messages).2.isEmpty
        then s.last_user_index_written
        else ((captureUserStep s.user_messages_list o.current_user_messages).1.length : Int) - 1)
      = _
    by_cases hemp : (captureUserStep s.user_messages_list o.current_user_messages).2 = []
    · rw [if_pos (by simp [hemp]), hinv, hulen, hcu_len,
        if_neg ((captureUserStep_writes_empty _ _).mp hemp)]
    · rw [if_neg (by simpa [List.isEmpty_iff] using hemp), hulen]

lemma runCapture_spec : ∀ (obs : List CaptureObs) (s : CaptureState),
    s.user_messages_list.length ≤ (runCapture s obs).1.user_messages_list.length ∧
    (runCapture s obs).2.filterMap (roleIdx Role.user)
      = List.range' s.user_messages_list.length
          ((runCapture s obs).1.user_messages_list.length
            - s.user_messages_list.length) ∧
    (s.last_user_index_written = (s.user_messages_list.length : Int) - 1 →
      (runCapture s obs).1.last_user_index_written
        = ((runCapture s obs).1.user_messages_list.length : Int) - 1) := by
  intro obs
  induction obs with
  | nil =>
    intro s
    exact ⟨le_refl _, by simp [runCapture], fun h => h⟩
  | cons o rest ih =>
    intro s
    have hstep := capture_messages_spec s o
    have hrec := ih (capture_messages s o).1
    have hrw1 : (runCapture s (o :: rest)).1
        = (runCapture (capture_messages s o).1 rest).1 := rfl
    have hrw2 : (runCapture s (o :: rest)).2
        = (capture_messages s o).2 ++ (runCapture (capture_messages s o).1 rest).2 := rfl
    refine ⟨?_, ?_, ?_⟩
    · rw [hrw1]
      exact le_trans hstep.1 hrec.1
    · rw [hrw1, hrw2, List.filterMap_append, hstep.2.1, hrec.2.1]
      exact range'_glue hstep.1 hrec.1
    · rw [hrw1]
      exact fun h => hrec.2.2 (hstep.2.2 h)

/-- When a `_capture_messages` call observes at most one new assistant
message, the `lastWrittenIndex = len(entries) - 1` invariant is preserved
for the assistant role (the write, if any, is the single `i = 0`
iteration, at index `stored_len`). -/
lemma capture_messages_ai_single (s : CaptureState) (o : CaptureObs)
    (hle : o.current_ai_messages.length ≤ s.ai_messages_list.length + 1)
    (hinv : s.last_ai_index_written = (s.ai_messages_list.length : Int) - 1) :
    (capture_messages s o).1.last_ai_index_written
      = ((capture_messages s o).1.ai_messages_list.length : Int) - 1 := by
  have hproj1 : (capture_messages s o).1.ai_messages_list
      = (captureAiStep s.ai_messages_list o.current_ai_messages o.loading_present).1 := rfl
  have hproj2 : (capture_messages s o).1.last_ai_index_written
      = (match (captureAiStep s.ai_messages_list o.current_ai_messages
            o.loading_present).2.getLast? with
         | none => s.last_ai_index_written
         | some w => (w.index : Int)) := rfl
  rw [hproj1, hproj2]
  unfold captureAiStep
  split_ifs with h
  · have hdlen : (o.current_ai_messages.drop s.ai_messages_list.length).length = 1 := by
      rw [List.length_drop]
      omega
    obtain ⟨md, hmd⟩ := List.length_eq_one.mp hdlen
    rw [hmd]
    show (match ([⟨Role.ai, s.ai_messages_list.length + 0, md⟩] : List Write).getLast? with
        | none => s.last_ai_index_written
        | some w => (w.index : Int))
      = (((s.ai_messages_list ++ [md]).length : Nat) : Int) - 1
    simp [List.length_append]
  · show (match ([] : List Write).getLast? with
        | none => s.last_ai_index_written
        | some w => (w.index : Int))
      = ((s.ai_messages_list.length : Nat) : Int) - 1
    exact hinv

/-- C6 (amended): the index discipline holds only for the user role.  In
the continuous-capture loop, starting from an empty ledger, the persisted
*user* indices are exactly `0..N-1` in order with no index skipped or
rewritten, and the user last-written index equals the in-memory list
length minus one after each call.  For the *assistant* role the `i`-th of
`k` new messages of one call is written at index `stored_len + 2*i`
(`len(self.ai_messages_list)` is re-read after each append), so a call
capturing `k ≥ 2` new assistant messages skips indices; the
`lastWrittenIndex = len - 1` invariant is preserved only when at most one
new assistant message arrives per call.  The blocking operation's
finalize-time assistant write leaves `lastWrittenIndex = len - 1`, but
its single write carries index `len-1` directly, which can skip earlier
indices. -/
theorem ledger_index_discipline :
    (∀ (obs : List CaptureObs),
      (runCapture ⟨[], [], -1, -1⟩ obs).2.filterMap (roleIdx Role.user)
        = List.range (runCapture ⟨[], [], -1, -1⟩ obs).1.user_messages_list.length ∧
      (runCapture ⟨[], [], -1, -1⟩ obs).1.last_user_index_written
        = ((runCapture ⟨[], [], -1, -1⟩ obs).1.user_messages_list.length : Int) - 1) ∧
    (∀ (stored current : List MessageData) (lp : Bool),
      (captureAiStep stored current lp).2.map Write.index
        = if stored.length < current.length ∧ lp = false
          then (List.range (current.length - stored.length)).map
                 (fun i => stored.length + 2 * i)
          else []) ∧
    (∀ (s : CaptureState) (o : CaptureObs),
      o.current_ai_messages.length ≤ s.ai_messages_list.length + 1 →
      s.last_ai_index_written = (s.ai_messages_list.length : Int) - 1 →
      (capture_messages s o).1.last_ai_index_written
        = ((capture_messages s o).1.ai_messages_list.length : Int) - 1) ∧
    (∀ (b : Baseline) (s : WaitState) (o : PollObs) (s' : WaitState)
        (w : List Write) (res : Str),
      waitPoll b s o = .finalized s' w res →
      s'.last_ai_index_written = (s'.ai_messages_list.length : Int) - 1) := by
  refine ⟨?_, captureAiStep_indices, capture_messages_ai_single, ?_⟩
  · intro obs
    have h := runCapture_spec obs ⟨[], [], -1, -1⟩
    refine ⟨?_, h.2.2 rfl⟩
    rw [h.2.1]
    simp [List.range_eq_range']
  · intro b s o s' w res h
    unfold waitPoll at h
    by_cases hidle : stillIdle b o = true
    · rw [if_pos hidle] at h
      exact absurd h (by simp)
    · rw [if_neg hidle] at h
      by_cases hf : finalizeCheck (trackerUpdate (userCapture s o).1 o) o = true
      · rw [if_pos hf] at h
        cases hml : o.current_ai_messages.getLast? with
        | none =>
          rw [hml] at h
          exact absurd h (by simp)
        | some md =>
          rw [hml] at h
          dsimp only at h
          by_cases hemp : (normalize_stream_text md.content).isEmpty
          · rw [if_pos hemp] at h
            exact absurd h (by simp)
          · rw [if_neg hemp] at h
            have hne : o.current_ai_messages ≠ [] := by
              intro hc
              rw [hc] at hml
              exact absurd hml (by simp)
            have hlen : 1 ≤ o.current_ai_messages.length := by
              cases hc : o.current_ai_messages with
              | nil => exact absurd hc hne
              | cons x xs => simp
            cases h
            show ((o.current_ai_messages.length - 1 : Nat) : Int)
              = (o.current_ai_messages.length : Int) - 1
            omega
      · rw [if_neg hf] at h
        exact absurd h (by simp)

/-- Witness for C6: a concrete two-poll capture run, a concrete
single-new-assistant-message call preserving the invariant, and the
invariant at a concrete finalized blocking poll. -/
theorem ledger_index_discipline_witness :
    ((runCapture ⟨[], [], -1, -1⟩
        [⟨[⟨str "q1", []⟩], [], false⟩,
         ⟨[⟨str "q1", []⟩, ⟨str "q2", []⟩], [⟨str "ans one.", []⟩], false⟩]).2.filterMap
      (roleIdx Role.user)
      = List.range (runCapture ⟨[], [], -1, -1⟩
          [⟨[⟨str "q1", []⟩], [], false⟩,
           ⟨[⟨str "q1", []⟩, ⟨str "q2", []⟩],
            [⟨str "ans one.", []⟩], false⟩]).1.user_messages_list.length) ∧
    ((capture_messages ⟨[], [], -1, -1⟩
        ⟨[], [⟨str "ans one.", []⟩], false⟩).1.last_ai_index_written
      = ((capture_messages ⟨[], [], -1, -1⟩
          ⟨[], [⟨str "ans one.", []⟩], false⟩).1.ai_messages_list.length : Int) - 1) ∧
    ({ user_messages_list := [], ai_messages_list := [⟨str "Reply here.", []⟩],
       last_user_index_written := -1, last_ai_index_written := 0,
       last_content := str "Reply here.", first_token_logged := true,
       seen_stop_generating := true, first_new_content := true,
       unchanged_polls := 1 } : WaitState).last_ai_index_written
      = (([⟨str "Reply here.", []⟩] : List MessageData).length : Int) - 1 :=
  ⟨(ledger_index_discipline.1 _).1,
   ledger_index_discipline.2.2.1 ⟨[], [], -1, -1⟩
    ⟨[], [⟨str "ans one.", []⟩], false⟩ (by decide) (by decide),
   ledger_index_discipline.2.2.2 ⟨0, [], []⟩
    { user_messages_list := [], ai_messages_list := [],
      last_user_index_written := -1, last_ai_index_written := -1,
      last_content := str "Reply here.", first_token_logged := true,
      seen_stop_generating := true, first_new_content := true, unchanged_polls := 0 }
    ⟨[], [⟨str "Reply here.", []⟩], [], false⟩
    { user_messages_list := [], ai_messages_list := [⟨str "Reply here.", []⟩],
      last_user_index_written := -1, last_ai_index_written := 0,
      last_content := str "Reply here.", first_token_logged := true,
      seen_stop_generating := true, first_new_content := true, unchanged_polls := 1 }
    [⟨Role.ai, 0, ⟨str "Reply here.", []⟩⟩] (str "Reply here.") (by decide)⟩

/-- C6 counterexample, in two parts.  (1) A single `_capture_messages`
call observing two new assistant messages from an empty ledger persists
assistant indices `[0, 2]` — not `0..N-1 = [0, 1]` — and ends with
`last_ai_index_written = 2` while the in-memory list has length 2, so
`lastWrittenIndex = len(entries) - 1` fails after the call (index 1 is
skipped, and a later capture rewrites index 2).  (2) One blocking send
against a page that already held two assistant messages finalizes with a
single persisted assistant write at index 2 — for this 1-write sequence
the indices are `[2]`, not `[0]`. -/
theorem ledger_skip_counterexample :
    ((capture_messages ⟨[], [], -1, -1⟩
        ⟨[], [⟨str "m0", []⟩, ⟨str "m1", []⟩], false⟩).2.map Write.index = [0, 2]) ∧
    ((capture_messages ⟨[], [], -1, -1⟩
        ⟨[], [⟨str "m0", []⟩, ⟨str "m1", []⟩], false⟩).1.last_ai_index_written = 2) ∧
    ((capture_messages ⟨[], [], -1, -1⟩
        ⟨[], [⟨str "m0", []⟩, ⟨str "m1", []⟩], false⟩).1.ai_messages_list.length = 2) ∧
    ((2 : Int) ≠ (2 : Int) - 1) ∧
    ([0, 2] ≠ List.range 2) ∧
    ((runWait ⟨2, str "b1", []⟩
        (initWaitState ⟨2, str "b1", []⟩ [] [⟨str "a0", []⟩, ⟨str "b1", []⟩] (-1) 1)
        [⟨[], [⟨str "a0", []⟩, ⟨str "b1", []⟩, ⟨str "Reply here.", []⟩], [], true⟩,
         ⟨[], [⟨str "a0", []⟩, ⟨str "b1", []⟩, ⟨str "Reply here.", []⟩], [], false⟩]).1.map
      Write.index = [2]) ∧
    ((runWait ⟨2, str "b1", []⟩
        (initWaitState ⟨2, str "b1", []⟩ [] [⟨str "a0", []⟩, ⟨str "b1", []⟩] (-1) 1)
        [⟨[], [⟨str "a0", []⟩, ⟨str "b1", []⟩, ⟨str "Reply here.", []⟩], [], true⟩,
         ⟨[], [⟨str "a0", []⟩, ⟨str "b1", []⟩, ⟨str "Reply here.", []⟩], [], false⟩]).2
      = WaitOutcome.ok (str "Reply here.")) ∧
    [2] ≠ List.range 1 := by decide

/-! ## C8: the stream bridge (`app.py`, `_stream_response`) -/

/-- Items put on the `queue.Queue` by `_stream_response`'s worker
thread: `("data", delta)`, `("end", "[DONE]")` or `("error", str(e))`. -/
inductive QItem
  | data (payload : Str)
  | done
  | failed (msg : Str)
deriving DecidableEq

/-- The worker coroutine `run()` plus its exception handler: one `data`
item per delta produced by `stream_ai_response`, then `end` on success;
when the generator raises (e.g. `TimeoutError`), the items produced so
far are followed by one `error` item carrying the reason. -/
def workerItems (deltas : List Str) (failure : Option Str) : List QItem :=
  deltas.map QItem.data ++
    [match failure with
     | none => QItem.done
     | some e => QItem.failed e]

/-- The SSE frames yielded by `event_stream`. -/
inductive SSEFrame
  | start
  | data (payload : Str)
  | endF
  | errorF (msg : Str)
deriving DecidableEq

/-- The consumer loop of `event_stream`: FIFO dequeue; `data` frames pass
through in order; `end`/`error` yield their terminal frame and break. -/
def consumeQueue : List QItem → List SSEFrame
  | [] => []
  | .data p :: rest => .data p :: consumeQueue rest
  | .done :: _ => [.endF]
  | .failed e :: _ => [.errorF e]

/-- `event_stream` of `_stream_response`: exactly one `start` frame,
then the consumer loop over the worker's queue. -/
def event_stream (q : List QItem) : List SSEFrame :=
  .start :: consumeQueue q

/-- Terminal frames of the SSE protocol. -/
def isTerminalFrame : SSEFrame → Bool
  | .endF => true
  | .errorF _ => true
  | _ => false

/-- The payload of a data frame. -/
def dataPayload : SSEFrame → Option Str
  | .data p => some p
  | _ => none

lemma consumeQueue_data_append (ds : List Str) (t : QItem) :
    consumeQueue (ds.map QItem.data ++ [t])
      = ds.map SSEFrame.data ++ consumeQueue [t] := by
  induction ds with
  | nil => rfl
  | cons d ds ih => simp [consumeQueue, ih]

lemma filter_start_map_data (ds : List Str) :
    (ds.map SSEFrame.data).filter (fun f => f == SSEFrame.start) = [] := by
  induction ds with
  | nil => rfl
  | cons d ds ih => simp [List.filter_cons, beq_iff_eq, ih]

lemma filter_terminal_map_data (ds : List Str) :
    (ds.map SSEFrame.data).filter (fun f => isTerminalFrame f) = [] := by
  induction ds with
  | nil => rfl
  | cons d ds ih => simp [List.filter_cons, isTerminalFrame, ih]

lemma filterMap_payload_map_data (ds : List Str) :
    (ds.map SSEFrame.data).filterMap dataPayload = ds := by
  induction ds with
  | nil => rfl
  | cons d ds ih => simpa [List.filterMap_cons, dataPayload] using ih

lemma filterMap_payload_comp (ds : List Str) :
    List.filterMap (dataPayload ∘ SSEFrame.data) ds = ds := by
  induction ds with
  | nil => rfl
  | cons d ds ih => simp [List.filterMap_cons, dataPayload, Function.comp, ih]

/-- C8: the event sequence delivered to the SSE consumer is exactly one
`start` frame, then data frames carrying exactly the produced deltas in
production order (none dropped or reordered), then exactly one terminal
frame — `end` on success, `error` with the failure reason otherwise —
which is the last frame, the `start` being the first. -/
theorem stream_bridge_protocol (deltas : List Str) (failure : Option Str) :
    event_stream (workerItems deltas failure)
      = SSEFrame.start :: (deltas.map SSEFrame.data ++
          [match failure with
           | none => SSEFrame.endF
           | some e => SSEFrame.errorF e]) ∧
    (event_stream (workerItems deltas failure)).head? = some SSEFrame.start ∧
    ((event_stream (workerItems deltas failure)).filter
        (fun f => f == SSEFrame.start)).length = 1 ∧
    ((event_stream (workerItems deltas failure)).filter
        (fun f => isTerminalFrame f)).length = 1 ∧
    (event_stream (workerItems deltas failure)).getLast?
      = some (match failure with
              | none => SSEFrame.endF
              | some e => SSEFrame.errorF e) ∧
    (event_stream (workerItems deltas failure)).filterMap dataPayload = deltas := by
  have hmain : event_stream (workerItems deltas failure)
      = SSEFrame.start :: (deltas.map SSEFrame.data ++
          [match failure with
           | none => SSEFrame.endF
           | some e => SSEFrame.errorF e]) := by
    unfold event_stream workerItems
    rw [consumeQueue_data_append]
    cases failure <;> rfl
  refine ⟨hmain, by rw [hmain]; rfl, ?_, ?_, ?_, ?_⟩
  · rw [hmain]
    cases failure <;>
      simp [List.filter_cons, List.filter_append, filter_start_map_data]
  · rw [hmain]
    cases failure <;>
      simp [List.filter_cons, List.filter_append, filter_terminal_map_data, isTerminalFrame]
  · rw [hmain]
    cases failure with
    | none =>
      rw [show SSEFrame.start :: (deltas.map SSEFrame.data ++ [SSEFrame.endF])
          = (SSEFrame.start :: deltas.map SSEFrame.data) ++ [SSEFrame.endF] from rfl,
        List.getLast?_concat]
    | some e =>
      rw [show SSEFrame.start :: (deltas.map SSEFrame.data ++ [SSEFrame.errorF e])
          = (SSEFrame.start :: deltas.map SSEFrame.data) ++ [SSEFrame.errorF e] from rfl,
        List.getLast?_concat]
  · rw [hmain]
    cases failure <;>
      simp [List.filterMap_cons, List.filterMap_append, filterMap_payload_map_data,
        filterMap_payload_comp, dataPayload]

/-! ## C2: the deltas are full canonical texts -/

/-- The delta yielded by one streaming-loop iteration. -/
def StreamPollResult.delta : StreamPollResult → Option Str
  | .cont _ d => d
  | .finalized _ d _ => d

/-- C2 (amended): every delta emitted by the streaming loop is the *full*
current canonical text — whether or not it extends the previous one — and
the simulated growth `"Hello"` → `"Hello there"` → `"Hello there!"`
yields exactly the three deltas `"Hello"`, `"Hello there"`,
`"Hello there!"` followed by one terminal success frame, with one
assistant ledger entry at index 0 containing `"Hello there!"`. -/
theorem stream_delta_full_text :
    (∀ (b : Baseline) (s : WaitState) (o : PollObs) (d : Str),
      (streamPoll b s o).delta = some d → d = normLatest o) ∧
    runStream ⟨0, [], []⟩ (initWaitState ⟨0, [], []⟩ [] [] (-1) (-1))
        ([⟨[], [⟨str "Hello", []⟩], [], false⟩,
          ⟨[], [⟨str "Hello there", []⟩], [], false⟩]
          ++ List.replicate 7 (⟨[], [⟨str "Hello there!", []⟩], [], false⟩ : PollObs))
      = ([str "Hello", str "Hello there", str "Hello there!"],
         [⟨Role.ai, 0, ⟨str "Hello there!", []⟩⟩], StreamOutcome.done) ∧
    event_stream (workerItems [str "Hello", str "Hello there", str "Hello there!"] none)
      = [SSEFrame.start, SSEFrame.data (str "Hello"), SSEFrame.data (str "Hello there"),
         SSEFrame.data (str "Hello there!"), SSEFrame.endF] := by
  refine ⟨?_, by decide, by decide⟩
  intro b s o d
  unfold streamPoll
  by_cases hidle : stillIdle b o = true
  · rw [if_pos hidle]
    intro h
    exact absurd h (by simp [StreamPollResult.delta])
  · rw [if_neg hidle]
    have hpd : ∀ h : pollDelta s o = some d, d = normLatest o := by
      intro h
      unfold pollDelta at h
      split_ifs at h
      exact (Option.some_inj.mp h).symm
    by_cases hf : finalizeCheck (trackerUpdate s o) o = true
    · rw [if_pos hf]
      cases hml : o.current_ai_messages.getLast? with
      | none => exact hpd
      | some md => exact hpd
    · rw [if_neg hf]
      exact hpd

/-- Witness for C2 at a concrete changed poll. -/
theorem stream_delta_full_text_witness :
    str "Hello there" = normLatest
      ⟨[], [⟨str "Hello there", []⟩], [], false⟩ :=
  stream_delta_full_text.1 ⟨0, [], []⟩
    { user_messages_list := [], ai_messages_list := [],
      last_user_index_written := -1, last_ai_index_written := -1,
      last_content := str "Hello", first_token_logged := true,
      seen_stop_generating := false, first_new_content := true, unchanged_polls := 0 }
    ⟨[], [⟨str "Hello there", []⟩], [], false⟩ _ (by decide)

/-- C2 counterexample: at a poll where the current canonical text
`"Hello there"` starts with the previous text `"Hello"`, the claim
requires the delta `" there"` (= `current[len(previous):]`), but the loop
yields the full text `"Hello there"`. -/
theorem stream_delta_not_suffix_counterexample :
    List.isPrefixOf (str "Hello") (str "Hello there") = true ∧
    List.drop (str "Hello").length (str "Hello there") = str " there" ∧
    (streamPoll ⟨0, [], []⟩
      { user_messages_list := [], ai_messages_list := [],
        last_user_index_written := -1, last_ai_index_written := -1,
        last_content := str "Hello", first_token_logged := true,
        seen_stop_generating := false, first_new_content := true, unchanged_polls := 0 }
      ⟨[], [⟨str "Hello there", []⟩], [], false⟩).delta
      = some (str "Hello there") ∧
    some (str "Hello there") ≠ some (str " there") := by decide

/-- C9 counterexample: on a poll where one new user message appears (and
the assistant message does not finalize), the blocking loop persists it
immediately at index 0, while the streaming loop persists nothing — the
streaming loop never ledgers user messages. -/
theorem stream_no_user_capture_counterexample :
    (waitPoll ⟨0, [], []⟩ (initWaitState ⟨0, [], []⟩ [] [] (-1) (-1))
      ⟨[⟨str "question", []⟩], [⟨str "Hi there", []⟩], [], false⟩).writes
      = [⟨Role.user, 0, ⟨str "question", []⟩⟩] ∧
    (streamPoll ⟨0, [], []⟩ (initWaitState ⟨0, [], []⟩ [] [] (-1) (-1))
      ⟨[⟨str "question", []⟩], [⟨str "Hi there", []⟩], [], false⟩).writes
      = [] := by decide

lemma waitPoll_no_change {b : Baseline} {s : WaitState} {o : PollObs}
    (hs1 : s.last_content = b.baseline_last_ai_normalized)
    (hs2 : s.first_new_content = false)
    (ho : normLatest o = [] ∨ normLatest o = b.baseline_last_ai_normalized) :
    ∃ s' w, waitPoll b s o = .cont s' w ∧
      s'.last_content = b.baseline_last_ai_normalized ∧ s'.first_new_content = false := by
  unfold waitPoll
  by_cases hidle : stillIdle b o = true
  · rw [if_pos hidle]
    exact ⟨_, _, rfl, by simp [hs1], by simp [hs2]⟩
  · have hlat : normLatest o = b.baseline_last_ai_normalized := by
      rcases ho with h | h
      · exact absurd (by unfold stillIdle; rw [h]; rfl) hidle
      · exact h
    rw [if_neg hidle]
    rw [trackerUpdate_of_unchanged_quiet (by simp [hlat, hs1]) (by simp [hs2])]
    rw [if_neg (by rw [finalizeCheck_false_of_not_fnc (by simp [hs2])]; simp)]
    exact ⟨_, _, rfl, by simp [hs1], by simp [hs2]⟩

lemma runWait_no_change {b : Baseline} :
    ∀ (obs : List PollObs) (s : WaitState),
    s.last_content = b.baseline_last_ai_normalized → s.first_new_content = false →
    (∀ o ∈ obs, normLatest o = [] ∨ normLatest o = b.baseline_last_ai_normalized) →
    (runWait b s obs).2 = .timedOut := by
  intro obs
  induction obs with
  | nil => intro s _ _ _; rfl
  | cons o rest ih =>
    intro s hs1 hs2 hobs
    obtain ⟨s', w, hp, hs1', hs2'⟩ := waitPoll_no_change hs1 hs2 (hobs o (by simp))
    rw [runWait, hp]
    exact ih s' hs1' hs2' (fun o' ho' => hobs o' (List.mem_cons_of_mem _ ho'))

/-- C7: if no assistant content change is ever observed before the
deadline — every poll's canonical text is empty or still equals the
pre-send baseline — the blocking operation times out (`TimeoutError`)
rather than returning successfully. -/
theorem timeout_when_no_content_change (b : Baseline) (userList aiList : List MessageData)
    (lastUser lastAi : Int) (obs : List PollObs)
    (hobs : ∀ o ∈ obs, normLatest o = [] ∨ normLatest o = b.baseline_last_ai_normalized) :
    (runWait b (initWaitState b userList aiList lastUser lastAi) obs).2
      = WaitOutcome.timedOut :=
  runWait_no_change obs _ rfl rfl hobs

/-- Witness for C7: a concrete run with two no-change polls times out. -/
theorem timeout_when_no_content_change_witness :
    (runWait ⟨0, [], []⟩ (initWaitState ⟨0, [], []⟩ [] [] (-1) (-1))
      [⟨[], [], [], false⟩, ⟨[], [], [], true⟩]).2 = WaitOutcome.timedOut :=
  timeout_when_no_content_change ⟨0, [], []⟩ [] [] (-1) (-1) _ (by decide)

end CopilotChat
